import Mathlib

/- Verification of the PSXGraphics repository: the Blender mesh exporter
   (src/blendertoc.py, `export_model_to_c` and its helpers) and the wireframe
   preview renderer (src/render.py, `load_obj_c_model`, `prepare_vertices`,
   `rotate_vertices` and the per-frame interaction loop in `render_model`).

   Modelling conventions:
   - A line of text is a `Line := List Char`; a file is a `List Line`.
   - Python floats are modelled as exact rationals (ℚ).  Values rounded to two
     decimal digits are carried as integer counts of hundredths (ℤ), and
     `round(x, 2)` is modelled as round-half-to-even of `100 * x`.
   - Python exceptions (`ValueError` from `int`/`float`) are modelled with
     `Except String`.
   - `np.linalg.norm(v) < t` for a positive threshold `t` is modelled as
     `v.1 ^ 2 + v.2 ^ 2 < t ^ 2` (squaring is monotone on nonnegatives).
-/

abbrev Line := List Char

def lbrace : Char := '\x7b'

def rbrace : Char := '\x7d'

/-- Python's substring test `needle in line`. -/
def containsSub (t : Line) (l : Line) : Bool :=
  match l with
  | [] => t.isEmpty
  | c :: rest => List.isPrefixOf t (c :: rest) || containsSub t rest

/-- Python `str.strip()`: drop whitespace at both ends. -/
def pyStrip (l : Line) : Line :=
  ((l.dropWhile Char.isWhitespace).reverse.dropWhile Char.isWhitespace).reverse

/-- The character set of Python `line.strip("\x7b\x7d ,")` in the parser. -/
def isStripChar (c : Char) : Bool :=
  c = lbrace || c = rbrace || c = ' ' || c = ','

/-- Python `line.strip("\x7b\x7d ,")`: drop those characters at both ends. -/
def stripBraces (l : Line) : Line :=
  ((l.dropWhile isStripChar).reverse.dropWhile isStripChar).reverse

/-- Python `str.split(",")`. -/
def splitComma : Line → List Line
  | [] => [[]]
  | c :: rest =>
    if c = ',' then [] :: splitComma rest
    else
      match splitComma rest with
      | h :: t => (c :: h) :: t
      | [] => [[c]]

def digitChar (d : ℕ) : Char := Char.ofNat (48 + d)

def natToDigitsAux : ℕ → ℕ → Line
  | 0, _ => []
  | fuel + 1, n =>
    if n = 0 then [] else natToDigitsAux fuel (n / 10) ++ [digitChar (n % 10)]

/-- Decimal rendering of a natural number (Python `str` of a nonnegative int). -/
def natToDigits (n : ℕ) : Line := if n = 0 then ['0'] else natToDigitsAux (n + 1) n

/-- Value of a string of decimal digits. -/
def digitsVal (l : Line) : ℕ := l.foldl (fun a c => 10 * a + (c.toNat - 48)) 0

def digitsNat? (l : Line) : Option ℕ :=
  if !l.isEmpty && l.all Char.isDigit then some (digitsVal l) else none

/-- Python `int(s)`: strip whitespace, optional sign, decimal digits;
    `none` models the `ValueError` raised on anything else. -/
def pyInt? (t : Line) : Option ℤ :=
  match pyStrip t with
  | [] => none
  | c :: ds =>
    if c = '-' then (digitsNat? ds).map (fun n => -(n : ℤ))
    else if c = '+' then (digitsNat? ds).map (fun n => (n : ℤ))
    else (digitsNat? (c :: ds)).map (fun n => (n : ℤ))

def pyFloatCore? (s : Line) : Option ℚ :=
  let ip := s.takeWhile Char.isDigit
  let rest := s.dropWhile Char.isDigit
  match rest with
  | [] => if ip.isEmpty then none else some (digitsVal ip : ℚ)
  | c :: fp =>
    if c = '.' then
      if fp.all Char.isDigit && !(ip.isEmpty && fp.isEmpty) then
        some ((digitsVal ip : ℚ) + (digitsVal fp : ℚ) / (10 : ℚ) ^ fp.length)
      else none
    else none

/-- Python `float(s)` restricted to plain decimal notation, which covers every
    number the serializer emits: optional sign, integer digits, optional
    fraction (exponent and inf/nan forms are out of scope). -/
def pyFloat? (t : Line) : Option ℚ :=
  match pyStrip t with
  | [] => pyFloatCore? []
  | c :: s =>
    if c = '-' then (pyFloatCore? s).map (fun q => -q)
    else if c = '+' then pyFloatCore? s
    else pyFloatCore? (c :: s)

/-- Decimal rendering of a two-decimal value given as a count of hundredths:
    the shortest-decimal form Python's `str` prints for such a float
    (`3.0`, `2.5`, `-0.05`, ...; the sign of a negative zero is dropped). -/
def renderNum (d : ℤ) : Line :=
  let a := d.natAbs
  let frac :=
    if a % 100 = 0 then ['.', '0']
    else if a % 10 = 0 then ['.', digitChar (a % 100 / 10)]
    else ['.', digitChar (a % 100 / 10), digitChar (a % 10)]
  (if d < 0 then ['-'] else []) ++ natToDigits (a / 100) ++ frac

/-- Python `round(x, 2)` on exact values, as hundredths:
    round `100 * x` half-to-even. -/
def round2 (x : ℚ) : ℤ :=
  let y : ℚ := 100 * x
  if Int.fract y = 1 / 2 then
    if ⌊y⌋ % 2 = 0 then ⌊y⌋ else ⌊y⌋ + 1
  else round y

abbrev V3 := ℚ × ℚ × ℚ

abbrev V2 := ℚ × ℚ

abbrev V3Z := ℤ × ℤ × ℤ

abbrev V2Z := ℤ × ℤ

abbrev Quad := ℕ × ℕ × ℕ × ℕ

def toQ (d : ℤ) : ℚ := (d : ℚ) / 100

def toQ3 (v : V3Z) : V3 := (toQ v.1, toQ v.2.1, toQ v.2.2)

def toQ2 (v : V2Z) : V2 := (toQ v.1, toQ v.2)

/- ===== ModelParser: render.py `load_obj_c_model`, lines 19-105 =====
   The Python function iterates the file's lines, strips each, and runs six
   substring-triggered section recognizers in a fixed order; a `continue`
   follows each header match.  Data lines of the three attribute sections and
   of the vertex-index and uv-index sections raise `ValueError` (uncaught)
   when a field does not parse; only the normal-index section catches it and
   prints a warning.  Warnings are modelled by recording the offending line. -/

structure PState where
  in_vertex_array : Bool := false
  in_normal_array : Bool := false
  in_uv_array : Bool := false
  in_vertex_indices : Bool := false
  in_uv_indices : Bool := false
  in_normal_indices : Bool := false
  vertices : List V3 := []
  normals : List V3 := []
  uvs : List V2 := []
  vertex_indices : List (List ℤ) := []
  uv_indices : List (List ℤ) := []
  normal_indices : List ℤ := []
  warnings : List Line := []

def svectorTok : Line := ("SVECTOR").toList

def indexTok : Line := ("INDEX").toList

def intTok : Line := ("int").toList

def vertsTok : Line := ("_verts").toList

def normsTok : Line := ("_norms").toList

def uvTok : Line := ("_uv").toList

def vertexIndicesTok : Line := ("_vertex_indices").toList

def uvIndicesTok : Line := ("_uv_indices").toList

def normalIndicesTok : Line := ("_normal_indices").toList

def closeTok : Line := ("\x7d;").toList

def hdrVertsCond (line : Line) : Bool :=
  containsSub svectorTok line && containsSub vertsTok line

def hdrNormsCond (line : Line) : Bool :=
  containsSub svectorTok line && containsSub normsTok line

def hdrUvCond (line : Line) : Bool :=
  containsSub svectorTok line && containsSub uvTok line

def hdrViCond (line : Line) : Bool :=
  containsSub indexTok line && containsSub vertexIndicesTok line

def hdrUviCond (line : Line) : Bool :=
  containsSub indexTok line && containsSub uvIndicesTok line

def hdrNiCond (line : Line) : Bool :=
  containsSub intTok line && containsSub normalIndicesTok line

/-- `"\x7b" in line and "\x7d" in line`: the data-record test. -/
def dataLineCond (line : Line) : Bool :=
  containsSub [lbrace] line && containsSub [rbrace] line

/-- `parts = line.strip("\x7b\x7d ,").split(",")`, then, under
    `if len(parts) >= 3`, `x, y, z = map(float, parts[:3])`.
    `.ok none` is the silent skip; `.error` is the uncaught `ValueError`. -/
def readVec3 (line : Line) : Except String (Option V3) :=
  match splitComma (stripBraces line) with
  | p0 :: p1 :: p2 :: _ =>
    match pyFloat? p0, pyFloat? p1, pyFloat? p2 with
    | some x, some y, some z => .ok (some (x, y, z))
    | _, _, _ => .error "ValueError"
  | _ => .ok none

/-- Same for the UV section: `if len(parts) >= 2`, `u, v = map(float, parts[:2])`. -/
def readVec2 (line : Line) : Except String (Option V2) :=
  match splitComma (stripBraces line) with
  | p0 :: p1 :: _ =>
    match pyFloat? p0, pyFloat? p1 with
    | some u, some v => .ok (some (u, v))
    | _, _ => .error "ValueError"
  | _ => .ok none

/-- `[int(i) for i in parts]`; `none` models the `ValueError`. -/
def readInts (line : Line) : Option (List ℤ) :=
  (splitComma (stripBraces line)).mapM pyInt?

def handleVertexArray (st : PState) (line : Line) : Except String PState :=
  if !st.in_vertex_array then .ok st
  else if List.isPrefixOf closeTok line then .ok { st with in_vertex_array := false }
  else if dataLineCond line then
    match readVec3 line with
    | .error e => .error e
    | .ok none => .ok st
    | .ok (some v) => .ok { st with vertices := st.vertices ++ [v] }
  else .ok st

def handleNormalArray (st : PState) (line : Line) : Except String PState :=
  if !st.in_normal_array then .ok st
  else if List.isPrefixOf closeTok line then .ok { st with in_normal_array := false }
  else if dataLineCond line then
    match readVec3 line with
    | .error e => .error e
    | .ok none => .ok st
    | .ok (some v) => .ok { st with normals := st.normals ++ [v] }
  else .ok st

def handleUvArray (st : PState) (line : Line) : Except String PState :=
  if !st.in_uv_array then .ok st
  else if List.isPrefixOf closeTok line then .ok { st with in_uv_array := false }
  else if dataLineCond line then
    match readVec2 line with
    | .error e => .error e
    | .ok none => .ok st
    | .ok (some v) => .ok { st with uvs := st.uvs ++ [v] }
  else .ok st

def handleVertexIndices (st : PState) (line : Line) : Except String PState :=
  if !st.in_vertex_indices then .ok st
  else if List.isPrefixOf closeTok line then .ok { st with in_vertex_indices := false }
  else if dataLineCond line then
    match readInts line with
    | some xs => .ok { st with vertex_indices := st.vertex_indices ++ [xs] }
    | none => .error "ValueError"
  else .ok st

def handleUvIndices (st : PState) (line : Line) : Except String PState :=
  if !st.in_uv_indices then .ok st
  else if List.isPrefixOf closeTok line then .ok { st with in_uv_indices := false }
  else if dataLineCond line then
    match readInts line with
    | some xs => .ok { st with uv_indices := st.uv_indices ++ [xs] }
    | none => .error "ValueError"
  else .ok st

/-- The only index section wrapped in `try/except ValueError`: the malformed
    line is skipped and a warning is printed (recorded here). -/
def handleNormalIndices (st : PState) (line : Line) : Except String PState :=
  if !st.in_normal_indices then .ok st
  else if List.isPrefixOf closeTok line then .ok { st with in_normal_indices := false }
  else if dataLineCond line then
    match readInts line with
    | some xs => .ok { st with normal_indices := st.normal_indices ++ xs }
    | none => .ok { st with warnings := st.warnings ++ [line] }
  else .ok st

/-- One iteration of the `for line in file` loop (render.py lines 27-104). -/
def parseStep (st : PState) (raw : Line) : Except String PState := do
  let line := pyStrip raw
  if hdrVertsCond line then return { st with in_vertex_array := true }
  let st ← handleVertexArray st line
  if hdrNormsCond line then return { st with in_normal_array := true }
  let st ← handleNormalArray st line
  if hdrUvCond line then return { st with in_uv_array := true }
  let st ← handleUvArray st line
  if hdrViCond line then return { st with in_vertex_indices := true }
  let st ← handleVertexIndices st line
  if hdrUviCond line then return { st with in_uv_indices := true }
  let st ← handleUvIndices st line
  if hdrNiCond line then return { st with in_normal_indices := true }
  handleNormalIndices st line

/-- render.py `load_obj_c_model`, applied to the file's (unstripped) lines. -/
def load_obj_c_model (lines : List Line) : Except String PState :=
  lines.foldlM parseStep {}

/- ===== ModelSerializer: blendertoc.py lines 158-193 =====
   The Python code formats each table entry into a brace-tuple string at
   append time and later joins them with `',\n  '`; equivalently (and as
   modelled here) the numeric entries are kept and formatted when the joined
   line list is produced. -/

structure Model where
  name : Line
  verts : List V3Z
  norms : List V3Z
  uvs : List V2Z
  vertex_indices : List Quad
  uv_indices : List Quad
  normal_indices : List ℕ

def renderVec3 (v : V3Z) : Line :=
  [lbrace] ++ renderNum v.1 ++ [','] ++ renderNum v.2.1 ++ [','] ++ renderNum v.2.2 ++ [rbrace]

def renderVec2 (v : V2Z) : Line :=
  [lbrace] ++ renderNum v.1 ++ [','] ++ renderNum v.2 ++ [rbrace]

def renderQuad (q : Quad) : Line :=
  [lbrace] ++ natToDigits q.1 ++ [','] ++ natToDigits q.2.1 ++ [','] ++
    natToDigits q.2.2.1 ++ [','] ++ natToDigits q.2.2.2 ++ [rbrace]

def indentChars : Line := [' ', ' ']

/-- The body lines produced by interpolating `',\n  '.join(entries)` after a
    two-space indent: every line is indented, every line but the last gets a
    trailing comma, and an empty table leaves a bare indent line. -/
def joinEntries : List Line → List Line
  | [] => [indentChars]
  | [e] => [indentChars ++ e]
  | e :: rest => (indentChars ++ e ++ [',']) :: joinEntries rest

def hdrVertsLine (name : Line) : Line := svectorTok ++ [' '] ++ name ++ ("_verts[] = \x7b").toList

def hdrNormsLine (name : Line) : Line := svectorTok ++ [' '] ++ name ++ ("_norms[] = \x7b").toList

def hdrUvLine (name : Line) : Line := svectorTok ++ [' '] ++ name ++ ("_uv[] = \x7b").toList

def hdrViLine (name : Line) : Line :=
  indexTok ++ [' '] ++ name ++ ("_vertex_indices[] = \x7b").toList

def hdrUviLine (name : Line) : Line :=
  indexTok ++ [' '] ++ name ++ ("_uv_indices[] = \x7b").toList

def hdrNiLine (name : Line) : Line :=
  intTok ++ [' '] ++ name ++ ("_normal_indices[] = \x7b").toList

def closeLine : Line := ("\x7d; ").toList

def faceCountLine (name : Line) (n : ℕ) : Line :=
  intTok ++ [' '] ++ name ++ ("_num_faces = ").toList ++ natToDigits n ++
    (";  // ").toList ++ name ++ (" face count").toList

def includeLine1 : Line := ("#include <psxgte.h>").toList

def includeLine2 : Line := ("#include " ++ "\"../display.h\"").toList

def arrayBlock (hdr : Line) (entries : List Line) : List Line :=
  hdr :: joinEntries entries ++ [closeLine]

/-- The serialized file as a list of lines (the f-string `c_content` of
    blendertoc.py lines 165-193, split at its newlines; the trailing newline
    produces no extra line when the file is iterated). -/
def serializeLines (m : Model) : List Line :=
  [includeLine1, includeLine2, []]
    ++ [faceCountLine m.name m.vertex_indices.length, []]
    ++ arrayBlock (hdrVertsLine m.name) (m.verts.map renderVec3) ++ [[]]
    ++ arrayBlock (hdrNormsLine m.name) (m.norms.map renderVec3) ++ [[]]
    ++ arrayBlock (hdrViLine m.name) (m.vertex_indices.map renderQuad) ++ [[]]
    ++ arrayBlock (hdrUviLine m.name) (m.uv_indices.map renderQuad) ++ [[]]
    ++ arrayBlock (hdrNiLine m.name) (m.normal_indices.map natToDigits) ++ [[]]
    ++ arrayBlock (hdrUvLine m.name) (m.uvs.map renderVec2)

/- ===== Export pipeline: blendertoc.py lines 49-154 ===== -/

/-- blendertoc.py `unique_insert` (lines 97-103).  The Python dict is
    modelled as an insertion-ordered association list. -/
def alookup {α : Type} [DecidableEq α] : List (α × ℕ) → α → Option ℕ
  | [], _ => none
  | (k, v) :: rest, a => if a = k then some v else alookup rest a

def unique_insert {α : Type} [DecidableEq α] (item : α) (item_map : List (α × ℕ))
    (item_list : List α) : ℕ × List (α × ℕ) × List α :=
  match alookup item_map item with
  | some i => (i, item_map, item_list)
  | none => (item_list.length, item_map ++ [(item, item_list.length)], item_list ++ [item])

def TEXTURE_WIDTH : ℚ := 256

def TEXTURE_HEIGHT : ℚ := 256

/-- One polygon-loop record: the data blendertoc.py reads per corner
    (resolved vertex position, loop normal, UV or the `(0,0)` fallback). -/
structure RawCorner where
  pos : V3
  normal : V3
  uv : V2

/-- Lines 113-122: `vert = co - offset`, then scale with Y/Z swap and
    negated Y output, each component rounded to two decimals. -/
def roundedVert (p : V3) (offset : V3) (s : ℚ) : V3Z :=
  let vert : V3 := (p.1 - offset.1, p.2.1 - offset.2.1, p.2.2 - offset.2.2)
  (round2 (vert.1 * s), round2 ((-vert.2.2) * s), round2 (vert.2.1 * s))

/-- Line 124: normals are rounded componentwise in engine axis order;
    no remap and no scale. -/
def roundedNormal (n : V3) : V3Z := (round2 n.1, round2 n.2.1, round2 n.2.2)

/-- Lines 126-129: UV scaled to texture pixels, rounded. -/
def roundedUv (uv : V2) : V2Z :=
  (round2 (uv.1 * TEXTURE_WIDTH), round2 (uv.2 * TEXTURE_HEIGHT))

/-- The mutable export collections of `export_model_to_c`.  The Python code
    appends each index quad as a formatted string; the numeric quads are kept
    here and formatted by `serializeLines`. -/
structure ExpState where
  vertex_map : List (V3Z × ℕ) := []
  normal_map : List (V3Z × ℕ) := []
  uv_map : List (V2Z × ℕ) := []
  verts : List V3Z := []
  norms : List V3Z := []
  uvs : List V2Z := []
  vertex_indices : List Quad := []
  uv_indices : List Quad := []
  normal_indices : List ℕ := []

/-- Lines 112-137: process one loop corner (rounding + the three interns). -/
def processCorner (st : ExpState) (c : RawCorner) (offset : V3) (s : ℚ) :
    ExpState × ℕ × ℕ × ℕ :=
  let v := roundedVert c.pos offset s
  let n := roundedNormal c.normal
  let uvpx := roundedUv c.uv
  let r1 := unique_insert v st.vertex_map st.verts
  let r2 := unique_insert n st.normal_map st.norms
  let r3 := unique_insert uvpx st.uv_map st.uvs
  ({ st with vertex_map := r1.2.1, verts := r1.2.2,
             normal_map := r2.2.1, norms := r2.2.2,
             uv_map := r3.2.1, uvs := r3.2.2 },
   r1.1, r2.1, r3.1)

/-- The corner loop of one polygon, collecting `v_idx`, `n_idx`, `uv_idx`
    in loop order (the left-to-right append loop written as recursion). -/
def processCorners (st : ExpState) (poly : List RawCorner) (offset : V3) (s : ℚ) :
    ExpState × List ℕ × List ℕ × List ℕ :=
  match poly with
  | [] => (st, [], [], [])
  | c :: cs =>
    let r := processCorner st c offset s
    let rest := processCorners r.1 cs offset s
    (rest.1, r.2.1 :: rest.2.1, r.2.2.1 :: rest.2.2.1, r.2.2.2 :: rest.2.2.2)

/-- Face emission (lines 139-154, the dual-winding policy): a triangle
    becomes one quad with its last corner doubled; a quad becomes the
    original winding followed by the fully reversed winding, with four
    normal indices per emitted face.  Other arities emit nothing. -/
def emitPoly (vi uvi ni : List ℕ) : List Quad × List Quad × List ℕ :=
  match vi, uvi, ni with
  | [a, b, c], [ua, ub, uc], [na, nb, nc] =>
    ([(a, b, c, c)], [(ua, ub, uc, uc)], [na, nb, nc, nc])
  | [a, b, c, d], [ua, ub, uc, ud], [na, nb, nc, nd] =>
    ([(a, b, c, d), (d, c, b, a)], [(ua, ub, uc, ud), (ud, uc, ub, ua)],
     [na, nb, nc, nd, nd, nc, nb, na])
  | _, _, _ => ([], [], [])

def processPoly (st : ExpState) (poly : List RawCorner) (offset : V3) (s : ℚ) : ExpState :=
  let r := processCorners st poly offset s
  let e := emitPoly r.2.1 r.2.2.2 r.2.2.1
  { r.1 with vertex_indices := r.1.vertex_indices ++ e.1,
             uv_indices := r.1.uv_indices ++ e.2.1,
             normal_indices := r.1.normal_indices ++ e.2.2 }

def exportTablesFrom (st : ExpState) (polys : List (List RawCorner)) (offset : V3)
    (s : ℚ) : ExpState :=
  match polys with
  | [] => st
  | p :: ps => exportTablesFrom (processPoly st p offset s) ps offset s

/-- The `for poly in mesh.polygons` loop, from empty collections. -/
def exportTables (polys : List (List RawCorner)) (offset : V3) (s : ℚ) : ExpState :=
  exportTablesFrom {} polys offset s

/-- Global bounding box of the mesh's vertex positions (lines 63-75).
    Python's `min`/`max` over a nonempty sequence, so the head is split off. -/
structure BBox where
  min_x : ℚ
  max_x : ℚ
  min_y : ℚ
  max_y : ℚ
  min_z : ℚ
  max_z : ℚ

def computeBBox (v0 : V3) (vs : List V3) : BBox :=
  vs.foldl
    (fun bb v =>
      { min_x := min bb.min_x v.1, max_x := max bb.max_x v.1,
        min_y := min bb.min_y v.2.1, max_y := max bb.max_y v.2.1,
        min_z := min bb.min_z v.2.2, max_z := max bb.max_z v.2.2 })
    { min_x := v0.1, max_x := v0.1, min_y := v0.2.1, max_y := v0.2.1,
      min_z := v0.2.2, max_z := v0.2.2 }

def maxDim (bb : BBox) : ℚ :=
  max (max (bb.max_x - bb.min_x) (bb.max_y - bb.min_y)) (bb.max_z - bb.min_z)

/-- Lines 77-82: the centering offset is the bounding-box center. -/
def bbOffset (bb : BBox) : V3 :=
  ((bb.min_x + bb.max_x) / 2, (bb.min_y + bb.max_y) / 2, (bb.min_z + bb.max_z) / 2)

/-- Line 84: `uniform_scale = (TEXTURE_WIDTH / 2) / max_dim * scale_factor`. -/
def uniform_scale (bb : BBox) (scale_factor : ℚ) : ℚ :=
  TEXTURE_WIDTH / 2 / maxDim bb * scale_factor

/-- The evaluated mesh the exporter reads: vertex positions and polygons,
    each polygon an ordered list of loop-corner records. -/
structure Mesh where
  vertices : List V3
  polygons : List (List RawCorner)

/-- blendertoc.py `export_model_to_c` up to the file write: bounding box,
    offset and scale, then the table-building loop.  `none` models Python's
    `min()` exception on a mesh with no vertices. -/
def export_model (mesh : Mesh) (name : Line) (scale_factor : ℚ) : Option Model :=
  match mesh.vertices with
  | [] => none
  | v0 :: vs =>
    let bb := computeBBox v0 vs
    let st := exportTables mesh.polygons (bbOffset bb) (uniform_scale bb scale_factor)
    some { name := name, verts := st.verts, norms := st.norms, uvs := st.uvs,
           vertex_indices := st.vertex_indices, uv_indices := st.uv_indices,
           normal_indices := st.normal_indices }

/- ===== ProjectionEngine: render.py `prepare_vertices` (298-307) and
   `rotate_vertices` (311-327) ===== -/

/-- Python `int()` on a float: truncation toward zero. -/
def pytrunc (q : ℚ) : ℤ := if q < 0 then -⌊-q⌋ else ⌊q⌋

def projectPoint (v : V3) (cam : V3) (w h d : ℚ) : ℤ × ℤ :=
  let x := v.1 - cam.1
  let y := v.2.1 - cam.2.1
  let z := v.2.2 - cam.2.2
  (pytrunc (x / (z + d) * w / 2 + w / 2), pytrunc ((-y) / (z + d) * h / 2 + h / 2))

/-- render.py `prepare_vertices`: camera shift, the `z + camera_distance != 0`
    guard, perspective divide; guarded-out points are dropped. -/
def prepare_vertices (vs : List V3) (w h : ℚ) (cam : V3) (d : ℚ) : List (ℤ × ℤ) :=
  match vs with
  | [] => []
  | v :: rest =>
    if v.2.2 - cam.2.2 + d ≠ 0 then
      projectPoint v cam w h d :: prepare_vertices rest w h cam d
    else prepare_vertices rest w h cam d

/- ===== InteractionController: render.py `render_model`, lines 192-222 ===== -/

structure RState where
  angle_x : ℚ
  angle_y : ℚ
  vel : ℚ × ℚ
  is_dragging : Bool

def friction : ℚ := 99 / 100

/-- `np.sign`. -/
def qsign (x : ℚ) : ℚ := if 0 < x then 1 else if x < 0 then -1 else 0

/-- Lines 197-201, the idle-branch velocity update: friction decay, then if
    the decayed magnitude is below 0.2 the Y (yaw) component is reset to 0.3. -/
def idleVelUpdate (v : ℚ × ℚ) : ℚ × ℚ :=
  let w := (v.1 * friction, v.2 * friction)
  if w.1 ^ 2 + w.2 ^ 2 < (1 / 5 : ℚ) ^ 2 then (w.1, 3 / 10) else w

/-- Python `x %= 360` for floats (the divisor is positive). -/
def pymod360 (x : ℚ) : ℚ := x - 360 * ⌊x / 360⌋

/-- Lines 220-222: wrap into (-180, 180]. -/
def wrapYaw (x : ℚ) : ℚ :=
  let y := pymod360 x
  if y > 180 then y - 360 else y

/-- One per-frame update after event handling (lines 192-222): momentum
    integration while idle, the always-on flatten step, the low-momentum
    stop-and-flatten step, then the yaw wrap. -/
def frameUpdate (st : RState) (dt : ℚ) : RState :=
  let st1 :=
    if !st.is_dragging then
      { st with angle_x := st.angle_x + st.vel.1 * dt,
                angle_y := st.angle_y + st.vel.2 * dt,
                vel := idleVelUpdate st.vel }
    else st
  let st2 :=
    if 1 / 10 < |st1.angle_x| then
      { st1 with angle_x := st1.angle_x - qsign st1.angle_x * (1 / 10) }
    else { st1 with angle_x := 0 }
  let st3 :=
    if st2.vel.1 ^ 2 + st2.vel.2 ^ 2 < (1 / 20 : ℚ) ^ 2 then
      if 1 / 10 < |st2.angle_x| then
        { st2 with angle_x := st2.angle_x - qsign st2.angle_x * (1 / 10) }
      else { st2 with angle_x := 0, vel := (0, 0) }
    else st2
  { st3 with angle_y := wrapYaw st3.angle_y }

/- ===== Claim-level auxiliary definitions ===== -/

/-- An index quad as the parser returns it (a list of Python ints). -/
def quadToZ (q : Quad) : List ℤ := [(q.1 : ℤ), (q.2.1 : ℤ), (q.2.2.1 : ℤ), (q.2.2.2 : ℤ)]

/-- The parser state that reading `serializeLines m` produces: all three
    attribute tables and both brace-delimited index lists round-trip, but the
    normal-index list comes back empty, because the serializer emits normal
    indices as bare integers while the parser only accepts brace-delimited
    data records. -/
def expectedParse (m : Model) : PState :=
  { vertices := m.verts.map toQ3
    normals := m.norms.map toQ3
    uvs := m.uvs.map toQ2
    vertex_indices := m.vertex_indices.map quadToZ
    uv_indices := m.uv_indices.map quadToZ
    normal_indices := []
    warnings := [] }

/-- The model identifier does not collide with the parser's substring-based
    section markers: no header line of the serialized file satisfies a section
    test that comes before its own in the parser's check order, and the face
    count line satisfies none.  Every ordinary C identifier (such as the
    default `mymodel`) satisfies this; an identifier containing e.g. `_verts`
    or `SVECTOR` can break it. -/
def exportNameOk (m : Model) : Prop :=
  containsSub vertsTok (hdrNormsLine m.name) = false ∧
  containsSub vertsTok (hdrUvLine m.name) = false ∧
  containsSub normsTok (hdrUvLine m.name) = false ∧
  containsSub svectorTok (hdrViLine m.name) = false ∧
  containsSub svectorTok (hdrUviLine m.name) = false ∧
  containsSub vertexIndicesTok (hdrUviLine m.name) = false ∧
  containsSub svectorTok (hdrNiLine m.name) = false ∧
  containsSub indexTok (hdrNiLine m.name) = false ∧
  hdrVertsCond (faceCountLine m.name m.vertex_indices.length) = false ∧
  hdrNormsCond (faceCountLine m.name m.vertex_indices.length) = false ∧
  hdrUvCond (faceCountLine m.name m.vertex_indices.length) = false ∧
  hdrViCond (faceCountLine m.name m.vertex_indices.length) = false ∧
  hdrUviCond (faceCountLine m.name m.vertex_indices.length) = false ∧
  hdrNiCond (faceCountLine m.name m.vertex_indices.length) = false

/-- Consistency of a dedup table with its value-to-index map: every mapped
    index is in range and the table holds the mapped value there. -/
def TableInv {α : Type} [DecidableEq α] (m : List (α × ℕ)) (l : List α) : Prop :=
  ∀ k i, alookup m k = some i → i < l.length ∧ l[i]? = some k

def quadBounded (q : Quad) (n : ℕ) : Bool :=
  decide (q.1 < n) && decide (q.2.1 < n) && decide (q.2.2.1 < n) && decide (q.2.2.2 < n)

/-- Every stored vertex-index quad is within the vertex table and every
    stored UV-index quad is within the UV table. -/
def checkIndexBounds (st : ExpState) : Bool :=
  st.vertex_indices.all (fun q => quadBounded q st.verts.length) &&
    st.uv_indices.all (fun q => quadBounded q st.uvs.length)

/-- Induction invariant for the export fold: both dedup tables are consistent
    with their value-to-index maps, and every quad stored so far is within the
    current table lengths. -/
def ExpInv (st : ExpState) : Prop :=
  TableInv st.vertex_map st.verts ∧ TableInv st.uv_map st.uvs ∧
  (∀ q ∈ st.vertex_indices, quadBounded q st.verts.length = true) ∧
  (∀ q ∈ st.uv_indices, quadBounded q st.uvs.length = true)

/-- A one-triangle model used to exhibit the failing round-trip of the
    normal-index list. -/
def cexModel : Model :=
  { name := ("m").toList
    verts := [(100, 0, -250), (0, 50, 0), (5, 0, 0)]
    norms := [(0, 0, 100)]
    uvs := [(0, 0), (25600, 12800)]
    vertex_indices := [(0, 1, 2, 2)]
    uv_indices := [(0, 1, 1, 1)]
    normal_indices := [0, 0, 0, 0] }

/-- A file whose vertex-index section contains a malformed data line. -/
def cexBadIndexFile : List Line :=
  [hdrViLine (("m").toList), ("  \x7ba,b\x7d,").toList, closeLine]

/- ===== Basic list and character lemmas ===== -/

theorem dropWhile_append_all {p : Char → Bool} {l₁ : Line} (l₂ : Line)
    (h : ∀ c ∈ l₁, p c = true) :
    List.dropWhile p (l₁ ++ l₂) = List.dropWhile p l₂ := by
  induction l₁ with
  | nil => rfl
  | cons c t ih =>
    simp only [List.cons_append, List.dropWhile_cons, h c (List.mem_cons_self c t)]
    exact ih (fun x hx => h x (List.mem_cons_of_mem c hx))

theorem dropWhile_all_neg {p : Char → Bool} {l : Line} (h : ∀ c ∈ l, p c = false) :
    List.dropWhile p l = l := by
  induction l with
  | nil => rfl
  | cons c t ih =>
    simp only [List.dropWhile_cons, h c (List.mem_cons_self c t)]
    simp

theorem dropWhile_cons_neg {p : Char → Bool} {c : Char} (l : Line) (h : p c = false) :
    List.dropWhile p (c :: l) = c :: l := by
  simp [List.dropWhile_cons, h]

theorem mem_of_isPrefixOf {t l : Line} (h : List.isPrefixOf t l = true) :
    ∀ x ∈ t, x ∈ l := by
  induction t generalizing l with
  | nil => simp
  | cons a as ih =>
    cases l with
    | nil => simp [List.isPrefixOf] at h
    | cons b bs =>
      simp only [List.isPrefixOf, Bool.and_eq_true, beq_iff_eq] at h
      intro x hx
      rcases List.mem_cons.mp hx with rfl | hx
      · simp [h.1]
      · exact List.mem_cons_of_mem b (ih h.2 x hx)

theorem isPrefixOf_self_append (t b : Line) : List.isPrefixOf t (t ++ b) = true := by
  induction t with
  | nil => simp [List.isPrefixOf]
  | cons a as ih => simp [List.isPrefixOf, ih]

theorem containsSub_of_isPrefixOf {t l : Line} (h : List.isPrefixOf t l = true) :
    containsSub t l = true := by
  cases l with
  | nil =>
    cases t with
    | nil => rfl
    | cons a as => simp [List.isPrefixOf] at h
  | cons c cs => simp [containsSub, h]

theorem containsSub_cons {t : Line} (c : Char) {l : Line} (h : containsSub t l = true) :
    containsSub t (c :: l) = true := by
  simp [containsSub, h]

theorem containsSub_infix (t a b : Line) : containsSub t (a ++ (t ++ b)) = true := by
  induction a with
  | nil => exact containsSub_of_isPrefixOf (isPrefixOf_self_append t b)
  | cons c rest ih => exact containsSub_cons c ih

theorem not_containsSub {t l : Line} {x : Char} (hx : x ∈ t) (h : ∀ c ∈ l, c ≠ x) :
    containsSub t l = false := by
  induction l with
  | nil =>
    cases t with
    | nil => simp at hx
    | cons a as => simp [containsSub, List.isEmpty]
  | cons c cs ih =>
    simp only [containsSub, Bool.or_eq_false_iff]
    constructor
    · by_contra hp
      rw [Bool.not_eq_false] at hp
      exact h x (mem_of_isPrefixOf hp x hx) rfl
    · exact ih (fun a ha => h a (List.mem_cons_of_mem c ha))

theorem containsSub_singleton {c : Char} {l : Line} (h : c ∈ l) :
    containsSub [c] l = true := by
  induction l with
  | nil => simp at h
  | cons a as ih =>
    rcases List.mem_cons.mp h with rfl | h
    · simp [containsSub, List.isPrefixOf]
    · simp [containsSub, ih h]

theorem dropWhile_reverse_self {p : Char → Bool} {l : Line}
    (h : ∀ c, l.getLast? = some c → p c = false) :
    List.dropWhile p l.reverse = l.reverse := by
  cases hr : l.reverse with
  | nil => rfl
  | cons b bs =>
    refine dropWhile_cons_neg _ (h b ?_)
    rw [← List.head?_reverse, hr]
    rfl

theorem pyStrip_eq_self {l : Line}
    (h1 : ∀ c, l.head? = some c → c.isWhitespace = false)
    (h2 : ∀ c, l.getLast? = some c → c.isWhitespace = false) :
    pyStrip l = l := by
  unfold pyStrip
  have hd : List.dropWhile Char.isWhitespace l = l := by
    cases l with
    | nil => rfl
    | cons a t => exact dropWhile_cons_neg _ (h1 a rfl)
  rw [hd, dropWhile_reverse_self h2, List.reverse_reverse]

theorem pyStrip_indent_append {l : Line}
    (h1 : ∀ c, l.head? = some c → c.isWhitespace = false)
    (h2 : ∀ c, l.getLast? = some c → c.isWhitespace = false) :
    pyStrip (indentChars ++ l) = l := by
  unfold pyStrip
  rw [dropWhile_append_all l (by decide)]
  have hd : List.dropWhile Char.isWhitespace l = l := by
    cases l with
    | nil => rfl
    | cons a t => exact dropWhile_cons_neg _ (h1 a rfl)
  rw [hd, dropWhile_reverse_self h2, List.reverse_reverse]

/- ===== C5: yaw wrap ===== -/

theorem pymod360_bounds (x : ℚ) : 0 ≤ pymod360 x ∧ pymod360 x < 360 := by
  have heq : pymod360 x = 360 * Int.fract (x / 360) := by
    unfold pymod360
    rw [Int.fract]
    field_simp
  have h0 := Int.fract_nonneg (x / 360)
  have h1 := Int.fract_lt_one (x / 360)
  constructor
  · rw [heq]; linarith
  · rw [heq]; linarith

theorem wrapYaw_bounds (x : ℚ) : -180 < wrapYaw x ∧ wrapYaw x ≤ 180 := by
  obtain ⟨h0, h1⟩ := pymod360_bounds x
  by_cases h : pymod360 x > 180
  · simp only [wrapYaw, if_pos h]
    constructor <;> linarith
  · simp only [wrapYaw, if_neg h]
    push_neg at h
    constructor <;> linarith

/-- C5: after the per-frame update of the interaction loop — for any prior
    state (any yaw value, any velocity, dragging or not) and any frame time —
    the stored yaw angle `angle_y` lies in the half-open interval (-180, 180]. -/
theorem yaw_always_wrapped (st : RState) (dt : ℚ) :
    -180 < (frameUpdate st dt).angle_y ∧ (frameUpdate st dt).angle_y ≤ 180 :=
  wrapYaw_bounds _

/- ===== C4: projection guard ===== -/

/-- C4: `prepare_vertices` is exactly the projection of the sublist of points
    whose camera-relative depth denominator `z + camera_distance` is nonzero:
    a point failing the guard is dropped, every other point is projected, and
    the relative order of survivors is preserved.  No perspective divide is
    evaluated for a dropped point. -/
theorem projection_guard_filter (vs : List V3) (w h : ℚ) (cam : V3) (d : ℚ) :
    prepare_vertices vs w h cam d =
      (vs.filter fun v => decide (v.2.2 - cam.2.2 + d ≠ 0)).map
        (fun v => projectPoint v cam w h d) := by
  induction vs with
  | nil => rfl
  | cons v rest ih =>
    by_cases hz : v.2.2 - cam.2.2 + d ≠ 0 <;>
      simp [prepare_vertices, hz, ih]

/- ===== C6: dual winding on quads ===== -/

theorem processCorner_vertex_indices (st : ExpState) (c : RawCorner) (offset : V3) (s : ℚ) :
    (processCorner st c offset s).1.vertex_indices = st.vertex_indices := rfl

theorem processCorner_uv_indices (st : ExpState) (c : RawCorner) (offset : V3) (s : ℚ) :
    (processCorner st c offset s).1.uv_indices = st.uv_indices := rfl

theorem processCorner_normal_indices (st : ExpState) (c : RawCorner) (offset : V3) (s : ℚ) :
    (processCorner st c offset s).1.normal_indices = st.normal_indices := rfl

/-- C6: processing a 4-corner polygon appends exactly two face records to each
    of the three index streams; the second vertex quad, the second UV quad and
    the second group of four normal indices are the exact reverses of the
    first.  Nothing else is appended for that polygon. -/
theorem quad_dual_winding (st : ExpState) (c0 c1 c2 c3 : RawCorner) (offset : V3) (s : ℚ) :
    ∃ a b c d ua ub uc ud na nb nc nd : ℕ,
      (processPoly st [c0, c1, c2, c3] offset s).vertex_indices =
          st.vertex_indices ++ [(a, b, c, d), (d, c, b, a)] ∧
      (processPoly st [c0, c1, c2, c3] offset s).uv_indices =
          st.uv_indices ++ [(ua, ub, uc, ud), (ud, uc, ub, ua)] ∧
      (processPoly st [c0, c1, c2, c3] offset s).normal_indices =
          st.normal_indices ++ [na, nb, nc, nd] ++ [na, nb, nc, nd].reverse := by
  simp only [processPoly, processCorners, emitPoly,
    List.nil_append, List.cons_append, List.reverse_cons, List.reverse_nil, List.append_nil,
    List.append_assoc,
    processCorner_vertex_indices, processCorner_uv_indices, processCorner_normal_indices]
  exact ⟨_, _, _, _, _, _, _, _, _, _, _, _, rfl, rfl, rfl⟩

/- ===== C7: dedup idempotence ===== -/

theorem alookup_append_self {α : Type} [DecidableEq α] {m : List (α × ℕ)} {a : α}
    (h : alookup m a = none) (n : ℕ) : alookup (m ++ [(a, n)]) a = some n := by
  induction m with
  | nil => simp [alookup]
  | cons kv rest ih =>
    obtain ⟨k, v⟩ := kv
    by_cases hk : a = k
    · simp [alookup, hk] at h
    · simp only [alookup, if_neg hk] at h
      simp only [List.cons_append, alookup, if_neg hk]
      exact ih h

/-- C7: interning the same (already rounded) value twice returns the same
    index both times and does not grow the table the second time; the table
    length grows by exactly one when the value is absent from the map and by
    zero when it is already present. -/
theorem unique_insert_idempotent {α : Type} [DecidableEq α] (item : α)
    (item_map : List (α × ℕ)) (item_list : List α) :
    (unique_insert item (unique_insert item item_map item_list).2.1
        (unique_insert item item_map item_list).2.2).1 =
      (unique_insert item item_map item_list).1 ∧
    (unique_insert item (unique_insert item item_map item_list).2.1
        (unique_insert item item_map item_list).2.2).2.2.length =
      (unique_insert item item_map item_list).2.2.length ∧
    (alookup item_map item = none →
      (unique_insert item item_map item_list).2.2.length = item_list.length + 1) ∧
    (∀ i, alookup item_map item = some i →
      (unique_insert item item_map item_list).2.2.length = item_list.length) := by
  cases hl : alookup item_map item with
  | none =>
    have h2 := alookup_append_self hl item_list.length
    refine ⟨?_, ?_, ?_, ?_⟩
    · simp [unique_insert, hl, h2]
    · simp [unique_insert, hl, h2]
    · intro _; simp [unique_insert, hl]
    · intro i hi; cases hi
  | some i =>
    refine ⟨?_, ?_, ?_, ?_⟩
    · simp [unique_insert, hl]
    · simp [unique_insert, hl]
    · intro hn; cases hn
    · intro j _; simp [unique_insert, hl]

theorem unique_insert_idempotent_witness :
    alookup ([] : List (V3Z × ℕ)) ((1 : ℤ), (2 : ℤ), (3 : ℤ)) = none ∧
    (unique_insert ((1 : ℤ), (2 : ℤ), (3 : ℤ)) ([] : List (V3Z × ℕ)) []).2.2.length =
      ([] : List V3Z).length + 1 :=
  ⟨by decide, (unique_insert_idempotent ((1 : ℤ), (2 : ℤ), (3 : ℤ)) [] []).2.2.1 (by decide)⟩

/- ===== C9: idle spin never stops ===== -/

theorem idleVel_normSq_ge (v : ℚ × ℚ) :
    ¬ ((idleVelUpdate v).1 ^ 2 + (idleVelUpdate v).2 ^ 2 < (1 / 5 : ℚ) ^ 2) := by
  by_cases h : (v.1 * friction) ^ 2 + (v.2 * friction) ^ 2 < (1 / 5 : ℚ) ^ 2
  · simp only [idleVelUpdate, if_pos h]
    push_neg
    nlinarith [sq_nonneg (v.1 * friction)]
  · simp only [idleVelUpdate, if_neg h]
    exact h

/-- C9: in the idle (not-dragging) state the per-frame update never leaves the
    angular velocity at the zero vector: the frame's final velocity is exactly
    the friction-decayed (and possibly yaw-reset) velocity, that velocity
    fails the stop threshold test (so the stop-and-flatten zeroing branch is
    unreachable in the same frame), it is nonzero, and whenever the decayed
    magnitude is below the 0.2 threshold its yaw component has been reset to
    the constant 0.3. -/
theorem idle_spin_never_stops (st : RState) (dt : ℚ) (h : st.is_dragging = false) :
    (frameUpdate st dt).vel = idleVelUpdate st.vel ∧
    ¬ ((idleVelUpdate st.vel).1 ^ 2 + (idleVelUpdate st.vel).2 ^ 2 < (1 / 20 : ℚ) ^ 2) ∧
    idleVelUpdate st.vel ≠ (0, 0) ∧
    ((st.vel.1 * friction) ^ 2 + (st.vel.2 * friction) ^ 2 < (1 / 5 : ℚ) ^ 2 →
      (idleVelUpdate st.vel).2 = 3 / 10) := by
  have hge := idleVel_normSq_ge st.vel
  have h20 : ¬ ((idleVelUpdate st.vel).1 ^ 2 + (idleVelUpdate st.vel).2 ^ 2 <
      (1 / 20 : ℚ) ^ 2) := by
    push_neg at hge ⊢
    calc ((1 : ℚ) / 20) ^ 2 ≤ (1 / 5 : ℚ) ^ 2 := by norm_num
    _ ≤ _ := hge
  refine ⟨?_, h20, ?_, ?_⟩
  · simp only [frameUpdate, h, Bool.not_false, if_true]
    split <;> rfl
  · intro heq
    rw [heq] at hge
    norm_num at hge
  · intro hlt
    simp only [idleVelUpdate]
    rw [if_pos hlt]

theorem idle_spin_never_stops_witness :
    (⟨0, 0, (0, 3 / 10), false⟩ : RState).is_dragging = false ∧
    idleVelUpdate (0, 3 / 10) ≠ (0, 0) :=
  ⟨rfl, (idle_spin_never_stops ⟨0, 0, (0, 3 / 10), false⟩ 0 rfl).2.2.1⟩

/- ===== C3: normalize-mode scale and centering ===== -/

theorem round2_zero : round2 0 = 0 := by
  simp [round2]

theorem roundedVert_center (c : V3) (s : ℚ) : roundedVert c c s = (0, 0, 0) := by
  simp [roundedVert, round2_zero]

/-- C3 (amended): for a mesh whose global bounding box is x∈[-2,2], y∈[-1,1],
    z∈[-2,2], the normalize-mode transform multiplies positions by
    `(256/2) / max_dim = 128/4 = 32` times the user scale factor (not 64: the
    code divides the half extent by the full largest bounding dimension), and
    the bounding-box center maps exactly to the origin. -/
theorem normalize_scale_and_centering (v0 : V3) (vs : List V3) (sf : ℚ)
    (hbb : computeBBox v0 vs = ⟨-2, 2, -1, 1, -2, 2⟩) :
    uniform_scale (computeBBox v0 vs) sf = 32 * sf ∧
    roundedVert (bbOffset (computeBBox v0 vs)) (bbOffset (computeBBox v0 vs))
        (uniform_scale (computeBBox v0 vs) sf) = (0, 0, 0) := by
  constructor
  · rw [hbb]
    unfold uniform_scale maxDim TEXTURE_WIDTH
    norm_num
  · exact roundedVert_center _ _

/-- C3 counterexample: for the two-point mesh realizing that bounding box and
    user scale factor 1, the code's uniform scale is 32, not the 64 the claim
    asserts. -/
theorem normalize_scale_counterexample :
    computeBBox (-2, -1, -2) [(2, 1, 2)] = ⟨-2, 2, -1, 1, -2, 2⟩ ∧
    uniform_scale (computeBBox (-2, -1, -2) [(2, 1, 2)]) 1 = 32 * 1 ∧
    ¬ uniform_scale (computeBBox (-2, -1, -2) [(2, 1, 2)]) 1 = 64 * 1 := by
  have hbb : computeBBox ((-2 : ℚ), (-1 : ℚ), (-2 : ℚ)) [((2 : ℚ), (1 : ℚ), (2 : ℚ))] =
      ⟨-2, 2, -1, 1, -2, 2⟩ := by
    unfold computeBBox
    simp only [List.foldl_cons, List.foldl_nil]
    norm_num [min_def, max_def]
  refine ⟨hbb, ?_, ?_⟩
  · rw [hbb]
    unfold uniform_scale maxDim TEXTURE_WIDTH
    norm_num
  · rw [hbb]
    unfold uniform_scale maxDim TEXTURE_WIDTH
    norm_num

theorem normalize_scale_witness :
    computeBBox (-2, -1, -2) [(2, 1, 2)] = ⟨-2, 2, -1, 1, -2, 2⟩ ∧
    uniform_scale (computeBBox (-2, -1, -2) [(2, 1, 2)]) 5 = 32 * 5 :=
  ⟨normalize_scale_counterexample.1,
   (normalize_scale_and_centering (-2, -1, -2) [(2, 1, 2)] 5
      normalize_scale_counterexample.1).1⟩

/- ===== Dedup-table invariant machinery (C8, C10) ===== -/

theorem alookup_append_cases {α : Type} [DecidableEq α] {m : List (α × ℕ)} {a k : α}
    {n i : ℕ} (h : alookup (m ++ [(a, n)]) k = some i) :
    alookup m k = some i ∨ (alookup m k = none ∧ k = a ∧ i = n) := by
  induction m with
  | nil =>
    simp only [List.nil_append, alookup] at h
    by_cases hk : k = a
    · rw [if_pos hk] at h
      right
      exact ⟨rfl, hk, (Option.some_inj.mp h).symm⟩
    · rw [if_neg hk] at h
      cases h
  | cons kv rest ih =>
    obtain ⟨k', v'⟩ := kv
    by_cases hk : k = k'
    · simp only [List.cons_append, alookup, if_pos hk] at h ⊢
      left
      exact h
    · simp only [List.cons_append, alookup, if_neg hk] at h ⊢
      exact ih h

theorem unique_insert_spec {α : Type} [DecidableEq α] {m : List (α × ℕ)} {l : List α}
    (hinv : TableInv m l) (a : α) :
    ((unique_insert a m l).2.2)[(unique_insert a m l).1]? = some a ∧
    TableInv (unique_insert a m l).2.1 (unique_insert a m l).2.2 ∧
    (∃ suf, (unique_insert a m l).2.2 = l ++ suf) ∧
    (unique_insert a m l).1 < (unique_insert a m l).2.2.length := by
  cases hl : alookup m a with
  | some i =>
    obtain ⟨hb, hg⟩ := hinv a i hl
    have hu : unique_insert a m l = (i, m, l) := by
      unfold unique_insert
      rw [hl]
    rw [hu]
    exact ⟨hg, hinv, ⟨[], by simp⟩, hb⟩
  | none =>
    have hu : unique_insert a m l = (l.length, m ++ [(a, l.length)], l ++ [a]) := by
      unfold unique_insert
      rw [hl]
    rw [hu]
    refine ⟨List.getElem?_concat_length l a, ?_, ⟨[a], rfl⟩, by simp⟩
    intro k i hk
    rcases alookup_append_cases hk with hold | ⟨-, rfl, rfl⟩
    · obtain ⟨hb, hg⟩ := hinv k i hold
      constructor
      · simp only [List.length_append, List.length_cons, List.length_nil]
        omega
      · rw [List.getElem?_append_left hb]
        exact hg
    · constructor
      · simp
      · exact List.getElem?_concat_length l k

/- ===== C10: normals are rounded in place, unswapped and unscaled ===== -/

theorem processCorner_norm_fields (st : ExpState) (c : RawCorner) (offset : V3) (s : ℚ) :
    (processCorner st c offset s).1.normal_map =
      (unique_insert (roundedNormal c.normal) st.normal_map st.norms).2.1 ∧
    (processCorner st c offset s).1.norms =
      (unique_insert (roundedNormal c.normal) st.normal_map st.norms).2.2 :=
  ⟨rfl, rfl⟩

theorem processCorners_norm_table (poly : List RawCorner) (st : ExpState) (offset : V3)
    (s : ℚ) (hinv : TableInv st.normal_map st.norms) :
    TableInv (processCorners st poly offset s).1.normal_map
        (processCorners st poly offset s).1.norms ∧
    (∃ suf, (processCorners st poly offset s).1.norms = st.norms ++ suf) ∧
    ∀ c ∈ poly, roundedNormal c.normal ∈ (processCorners st poly offset s).1.norms := by
  induction poly generalizing st with
  | nil => exact ⟨hinv, ⟨[], by simp [processCorners]⟩, by simp⟩
  | cons c cs ih =>
    have hf1 : (processCorner st c offset s).1.normal_map =
        (unique_insert (roundedNormal c.normal) st.normal_map st.norms).2.1 := rfl
    have hf2 : (processCorner st c offset s).1.norms =
        (unique_insert (roundedNormal c.normal) st.normal_map st.norms).2.2 := rfl
    obtain ⟨hg, hinv2, ⟨suf1, hsuf1⟩, -⟩ := unique_insert_spec hinv (roundedNormal c.normal)
    have hinv' : TableInv (processCorner st c offset s).1.normal_map
        (processCorner st c offset s).1.norms := by
      rw [hf1, hf2]; exact hinv2
    obtain ⟨hinvf, ⟨suf2, hsuf2⟩, hmem⟩ := ih (processCorner st c offset s).1 hinv'
    have hstep : (processCorners st (c :: cs) offset s).1 =
        (processCorners (processCorner st c offset s).1 cs offset s).1 := rfl
    refine ⟨by rw [hstep]; exact hinvf, ?_, ?_⟩
    · refine ⟨suf1 ++ suf2, ?_⟩
      rw [hstep, hsuf2, hf2, hsuf1, List.append_assoc]
    · intro c' hc'
      rcases List.mem_cons.mp hc' with rfl | hc'
      · rw [hstep, hsuf2]
        apply List.mem_append_left
        rw [hf2]
        exact List.getElem?_mem hg
      · rw [hstep]
        exact hmem c' hc'

theorem processPoly_norm_fields (st : ExpState) (poly : List RawCorner) (offset : V3)
    (s : ℚ) :
    (processPoly st poly offset s).normal_map =
      (processCorners st poly offset s).1.normal_map ∧
    (processPoly st poly offset s).norms = (processCorners st poly offset s).1.norms :=
  ⟨rfl, rfl⟩

theorem exportTablesFrom_norm_table (polys : List (List RawCorner)) (st : ExpState)
    (offset : V3) (s : ℚ) (hinv : TableInv st.normal_map st.norms) :
    TableInv (exportTablesFrom st polys offset s).normal_map
        (exportTablesFrom st polys offset s).norms ∧
    (∃ suf, (exportTablesFrom st polys offset s).norms = st.norms ++ suf) ∧
    ∀ poly ∈ polys, ∀ c ∈ poly,
      roundedNormal c.normal ∈ (exportTablesFrom st polys offset s).norms := by
  induction polys generalizing st with
  | nil => exact ⟨hinv, ⟨[], by simp [exportTablesFrom]⟩, by simp⟩
  | cons p ps ih =>
    obtain ⟨hinv1, ⟨suf1, hsuf1⟩, hmem1⟩ := processCorners_norm_table p st offset s hinv
    have hpf2 : (processPoly st p offset s).norms = (processCorners st p offset s).1.norms :=
      rfl
    have hinv' : TableInv (processPoly st p offset s).normal_map
        (processPoly st p offset s).norms := hinv1
    obtain ⟨hinvf, ⟨suf2, hsuf2⟩, hmem2⟩ := ih (processPoly st p offset s) hinv'
    have hstep : exportTablesFrom st (p :: ps) offset s =
        exportTablesFrom (processPoly st p offset s) ps offset s := rfl
    rw [hstep]
    refine ⟨hinvf, ⟨suf1 ++ suf2, by rw [hsuf2, hpf2, hsuf1, List.append_assoc]⟩, ?_⟩
    intro poly hpoly c hc
    rcases List.mem_cons.mp hpoly with rfl | hpoly
    · rw [hsuf2]
      apply List.mem_append_left
      rw [hpf2]
      exact hmem1 c hc
    · exact hmem2 poly hpoly c hc

theorem processCorner_norm_indep (st st' : ExpState) (c : RawCorner)
    (offset offset' : V3) (s s' : ℚ)
    (hm : st.normal_map = st'.normal_map) (hn : st.norms = st'.norms) :
    (processCorner st c offset s).1.normal_map =
      (processCorner st' c offset' s').1.normal_map ∧
    (processCorner st c offset s).1.norms = (processCorner st' c offset' s').1.norms := by
  constructor
  · show (unique_insert (roundedNormal c.normal) st.normal_map st.norms).2.1 =
      (unique_insert (roundedNormal c.normal) st'.normal_map st'.norms).2.1
    rw [hm, hn]
  · show (unique_insert (roundedNormal c.normal) st.normal_map st.norms).2.2 =
      (unique_insert (roundedNormal c.normal) st'.normal_map st'.norms).2.2
    rw [hm, hn]

theorem processCorners_norm_indep (poly : List RawCorner) (st st' : ExpState)
    (offset offset' : V3) (s s' : ℚ)
    (hm : st.normal_map = st'.normal_map) (hn : st.norms = st'.norms) :
    (processCorners st poly offset s).1.normal_map =
      (processCorners st' poly offset' s').1.normal_map ∧
    (processCorners st poly offset s).1.norms =
      (processCorners st' poly offset' s').1.norms := by
  induction poly generalizing st st' with
  | nil => exact ⟨hm, hn⟩
  | cons c cs ih =>
    obtain ⟨hm', hn'⟩ := processCorner_norm_indep st st' c offset offset' s s' hm hn
    exact ih (processCorner st c offset s).1 (processCorner st' c offset' s').1 hm' hn'

theorem exportTablesFrom_norm_indep (polys : List (List RawCorner)) (st st' : ExpState)
    (offset offset' : V3) (s s' : ℚ)
    (hm : st.normal_map = st'.normal_map) (hn : st.norms = st'.norms) :
    (exportTablesFrom st polys offset s).normal_map =
      (exportTablesFrom st' polys offset' s').normal_map ∧
    (exportTablesFrom st polys offset s).norms =
      (exportTablesFrom st' polys offset' s').norms := by
  induction polys generalizing st st' with
  | nil => exact ⟨hm, hn⟩
  | cons p ps ih =>
    obtain ⟨hm', hn'⟩ := processCorners_norm_indep p st st' offset offset' s s' hm hn
    exact ih (processPoly st p offset s) (processPoly st' p offset' s') hm' hn'

/-- C10: for every loop corner processed by the exporter, the interned normal
    is `roundedNormal`, the componentwise two-decimal rounding of the raw
    normal in the original engine axis order (no Y/Z swap or negation, and no
    scale): the rounded raw normal of every corner is present in the final
    normal table, and the normal table does not depend on the centering
    offset or on the position scale factor at all. -/
theorem normals_unscaled_unswapped (polys : List (List RawCorner)) (offset : V3) (s : ℚ) :
    (∀ poly ∈ polys, ∀ c ∈ poly,
        roundedNormal c.normal ∈ (exportTables polys offset s).norms) ∧
    ∀ offset' s', (exportTables polys offset' s').norms = (exportTables polys offset s).norms := by
  have hempty : TableInv (({} : ExpState)).normal_map (({} : ExpState)).norms := by
    intro k i hk
    cases hk
  constructor
  · exact (exportTablesFrom_norm_table polys {} offset s hempty).2.2
  · intro offset' s'
    exact (exportTablesFrom_norm_indep polys {} {} offset' offset s' s rfl rfl).2

theorem normals_unscaled_unswapped_witness :
    roundedNormal (RawCorner.mk (0, 0, 0) (1, 0, 0) (0, 0)).normal ∈
      (exportTables [[RawCorner.mk (0, 0, 0) (1, 0, 0) (0, 0)]] (0, 0, 0) 1).norms :=
  (normals_unscaled_unswapped [[RawCorner.mk (0, 0, 0) (1, 0, 0) (0, 0)]] (0, 0, 0) 1).1
    [RawCorner.mk (0, 0, 0) (1, 0, 0) (0, 0)] (by simp)
    (RawCorner.mk (0, 0, 0) (1, 0, 0) (0, 0)) (by simp)

/- ===== C8: exported face indices are within table bounds ===== -/

theorem quadBounded_mono {q : Quad} {n n' : ℕ} (h : quadBounded q n = true) (hle : n ≤ n') :
    quadBounded q n' = true := by
  simp only [quadBounded, Bool.and_eq_true, decide_eq_true_eq] at h ⊢
  omega

theorem processCorner_exp_spec (st : ExpState) (c : RawCorner) (offset : V3) (s : ℚ)
    (hinv : ExpInv st) :
    ExpInv (processCorner st c offset s).1 ∧
    st.verts.length ≤ (processCorner st c offset s).1.verts.length ∧
    st.uvs.length ≤ (processCorner st c offset s).1.uvs.length ∧
    (processCorner st c offset s).2.1 < (processCorner st c offset s).1.verts.length ∧
    (processCorner st c offset s).2.2.2 < (processCorner st c offset s).1.uvs.length := by
  obtain ⟨hv, hu, hqv, hqu⟩ := hinv
  obtain ⟨-, hvinv, ⟨sufv, hsufv⟩, hvlt⟩ := unique_insert_spec hv (roundedVert c.pos offset s)
  obtain ⟨-, huinv, ⟨sufu, hsufu⟩, hult⟩ := unique_insert_spec hu (roundedUv c.uv)
  have hlenv : st.verts.length ≤ (processCorner st c offset s).1.verts.length := by
    show st.verts.length ≤
      (unique_insert (roundedVert c.pos offset s) st.vertex_map st.verts).2.2.length
    rw [hsufv]
    simp
  have hlenu : st.uvs.length ≤ (processCorner st c offset s).1.uvs.length := by
    show st.uvs.length ≤ (unique_insert (roundedUv c.uv) st.uv_map st.uvs).2.2.length
    rw [hsufu]
    simp
  refine ⟨⟨hvinv, huinv, ?_, ?_⟩, hlenv, hlenu, hvlt, hult⟩
  · intro q hq
    exact quadBounded_mono (hqv q hq) hlenv
  · intro q hq
    exact quadBounded_mono (hqu q hq) hlenu

theorem processCorners_exp_spec (poly : List RawCorner) (st : ExpState) (offset : V3)
    (s : ℚ) (hinv : ExpInv st) :
    ExpInv (processCorners st poly offset s).1 ∧
    st.verts.length ≤ (processCorners st poly offset s).1.verts.length ∧
    st.uvs.length ≤ (processCorners st poly offset s).1.uvs.length ∧
    (∀ i ∈ (processCorners st poly offset s).2.1,
      i < (processCorners st poly offset s).1.verts.length) ∧
    (∀ i ∈ (processCorners st poly offset s).2.2.2,
      i < (processCorners st poly offset s).1.uvs.length) ∧
    (processCorners st poly offset s).1.vertex_indices = st.vertex_indices ∧
    (processCorners st poly offset s).1.uv_indices = st.uv_indices := by
  induction poly generalizing st with
  | nil =>
    exact ⟨hinv, le_refl _, le_refl _, by simp [processCorners], by simp [processCorners],
      rfl, rfl⟩
  | cons c cs ih =>
    obtain ⟨hinv', hlv, hlu, hiv, hiu⟩ := processCorner_exp_spec st c offset s hinv
    obtain ⟨hinvf, hlv', hlu', hbv, hbu, hei, heu⟩ := ih (processCorner st c offset s).1 hinv'
    have hstep1 : (processCorners st (c :: cs) offset s).1 =
        (processCorners (processCorner st c offset s).1 cs offset s).1 := rfl
    have hstep2 : (processCorners st (c :: cs) offset s).2.1 =
        (processCorner st c offset s).2.1 ::
          (processCorners (processCorner st c offset s).1 cs offset s).2.1 := rfl
    have hstep3 : (processCorners st (c :: cs) offset s).2.2.2 =
        (processCorner st c offset s).2.2.2 ::
          (processCorners (processCorner st c offset s).1 cs offset s).2.2.2 := rfl
    rw [hstep1, hstep2, hstep3]
    refine ⟨hinvf, le_trans hlv hlv', le_trans hlu hlu', ?_, ?_, ?_, ?_⟩
    · intro i hi
      rcases List.mem_cons.mp hi with rfl | hi
      · exact lt_of_lt_of_le hiv hlv'
      · exact hbv i hi
    · intro i hi
      rcases List.mem_cons.mp hi with rfl | hi
      · exact lt_of_lt_of_le hiu hlu'
      · exact hbu i hi
    · rw [hei]
      rfl
    · rw [heu]
      rfl

theorem emitPoly_bounds {vi uvi ni : List ℕ} {n m : ℕ}
    (hv : ∀ i ∈ vi, i < n) (hu : ∀ i ∈ uvi, i < m) :
    (∀ q ∈ (emitPoly vi uvi ni).1, quadBounded q n = true) ∧
    (∀ q ∈ (emitPoly vi uvi ni).2.1, quadBounded q m = true) := by
  unfold emitPoly
  split
  · next a b c ua ub uc na nb nc =>
    have ha := hv a (by simp)
    have hb := hv b (by simp)
    have hc := hv c (by simp)
    have hua := hu ua (by simp)
    have hub := hu ub (by simp)
    have huc := hu uc (by simp)
    constructor <;> intro q hq <;> simp only [List.mem_singleton] at hq <;> subst hq <;>
      simp only [quadBounded, Bool.and_eq_true, decide_eq_true_eq] <;> omega
  · next a b c d ua ub uc ud na nb nc nd =>
    have ha := hv a (by simp)
    have hb := hv b (by simp)
    have hc := hv c (by simp)
    have hd := hv d (by simp)
    have hua := hu ua (by simp)
    have hub := hu ub (by simp)
    have huc := hu uc (by simp)
    have hud := hu ud (by simp)
    constructor <;> intro q hq <;>
      rcases List.mem_cons.mp hq with rfl | hq <;>
      first
        | (simp only [quadBounded, Bool.and_eq_true, decide_eq_true_eq]; omega)
        | (simp only [List.mem_singleton] at hq; subst hq;
           simp only [quadBounded, Bool.and_eq_true, decide_eq_true_eq]; omega)
  · next =>
    constructor <;> intro q hq <;> simp at hq

theorem processPoly_exp_spec (st : ExpState) (poly : List RawCorner) (offset : V3) (s : ℚ)
    (hinv : ExpInv st) :
    ExpInv (processPoly st poly offset s) ∧
    st.verts.length ≤ (processPoly st poly offset s).verts.length ∧
    st.uvs.length ≤ (processPoly st poly offset s).uvs.length := by
  obtain ⟨hinvc, hlv, hlu, hbv, hbu, hei, heu⟩ := processCorners_exp_spec poly st offset s hinv
  obtain ⟨hqv, hqu⟩ := emitPoly_bounds hbv hbu
  obtain ⟨hti1, hti2, hold1, hold2⟩ := hinvc
  refine ⟨⟨hti1, hti2, ?_, ?_⟩, hlv, hlu⟩
  · intro q hq
    have hq' : q ∈ (processCorners st poly offset s).1.vertex_indices ++
        (emitPoly (processCorners st poly offset s).2.1
          (processCorners st poly offset s).2.2.2
          (processCorners st poly offset s).2.2.1).1 := hq
    rcases List.mem_append.mp hq' with hq2 | hq2
    · exact hold1 q hq2
    · exact hqv q hq2
  · intro q hq
    have hq' : q ∈ (processCorners st poly offset s).1.uv_indices ++
        (emitPoly (processCorners st poly offset s).2.1
          (processCorners st poly offset s).2.2.2
          (processCorners st poly offset s).2.2.1).2.1 := hq
    rcases List.mem_append.mp hq' with hq2 | hq2
    · exact hold2 q hq2
    · exact hqu q hq2

theorem exportTablesFrom_exp_spec (polys : List (List RawCorner)) (st : ExpState)
    (offset : V3) (s : ℚ) (hinv : ExpInv st) :
    ExpInv (exportTablesFrom st polys offset s) := by
  induction polys generalizing st with
  | nil => exact hinv
  | cons p ps ih =>
    exact ih (processPoly st p offset s) (processPoly_exp_spec st p offset s hinv).1

/-- C8: for every mesh run through the export pipeline (any polygon list, any
    centering offset and scale), every vertex index in every emitted face
    record is strictly below the final vertex-table length, and every UV index
    is strictly below the final UV-table length. -/
theorem export_index_bounds (polys : List (List RawCorner)) (offset : V3) (s : ℚ) :
    checkIndexBounds (exportTables polys offset s) = true := by
  have hempty : ExpInv ({} : ExpState) := by
    refine ⟨?_, ?_, ?_, ?_⟩
    · intro k i hk
      simp [alookup] at hk
    · intro k i hk
      simp [alookup] at hk
    · intro q hq
      simp at hq
    · intro q hq
      simp at hq
  obtain ⟨-, -, hqv, hqu⟩ := exportTablesFrom_exp_spec polys {} offset s hempty
  unfold checkIndexBounds
  rw [Bool.and_eq_true]
  constructor
  · rw [List.all_eq_true]
    intro q hq
    exact hqv q hq
  · rw [List.all_eq_true]
    intro q hq
    exact hqu q hq

/- ===== C2: malformed index lines ===== -/

/-- C2 (amended): only the normal-index section has the skip-with-warning
    policy.  Inside the normal-index section a data line whose fields do not
    all parse as integers leaves the collected indices unchanged, records a
    warning, and parsing continues; inside the vertex-index or UV-index
    section the same line raises the uncaught `ValueError` that aborts the
    parse. -/
theorem malformed_index_line_policy (st : PState) (line : Line)
    (hni : st.in_normal_indices = true)
    (hvi : st.in_vertex_indices = true)
    (hui : st.in_uv_indices = true)
    (hclose : List.isPrefixOf closeTok line = false)
    (hdata : dataLineCond line = true)
    (hbad : readInts line = none) :
    handleNormalIndices st line = .ok { st with warnings := st.warnings ++ [line] } ∧
    handleVertexIndices st line = .error "ValueError" ∧
    handleUvIndices st line = .error "ValueError" := by
  refine ⟨?_, ?_, ?_⟩
  · simp [handleNormalIndices, hni, hclose, hdata, hbad]
  · simp [handleVertexIndices, hvi, hclose, hdata, hbad]
  · simp [handleUvIndices, hui, hclose, hdata, hbad]

theorem malformed_index_line_policy_witness :
    handleVertexIndices
        { in_vertex_indices := true, in_uv_indices := true, in_normal_indices := true }
        (("\x7ba,b\x7d").toList) = .error "ValueError" :=
  (malformed_index_line_policy
      { in_vertex_indices := true, in_uv_indices := true, in_normal_indices := true }
      (("\x7ba,b\x7d").toList) rfl rfl rfl (by decide) (by decide) (by decide)).2.1

/-- C2 counterexample: a file whose vertex-index section contains the
    malformed data line `\x7ba,b\x7d,` makes the whole parse abort with an
    error — it is not skipped, contradicting the claim for the vertex-index
    (and likewise the UV-index) section. -/
theorem malformed_vertex_index_aborts :
    (load_obj_c_model cexBadIndexFile).toOption.isNone = true := by decide

/- ===== C1: number rendering and reparsing ===== -/

theorem dc_toNat {d : ℕ} (h : d < 10) : (digitChar d).toNat = 48 + d := by
  interval_cases d <;> decide

theorem dc_isDigit {d : ℕ} (h : d < 10) : (digitChar d).isDigit = true := by
  interval_cases d <;> decide

theorem isDigit_ne {c x : Char} (h : c.isDigit = true) (hx : x.isDigit = false) : c ≠ x := by
  intro heq
  rw [heq, hx] at h
  cases h

theorem digit_not_ws {c : Char} (h : c.isDigit = true) : c.isWhitespace = false := by
  by_contra hws
  rw [Bool.not_eq_false] at hws
  simp only [Char.isWhitespace, Bool.or_eq_true, decide_eq_true_eq] at hws
  rcases hws with ((rfl | rfl) | rfl) | rfl <;> exact absurd h (by decide)

theorem digit_not_strip {c : Char} (h : c.isDigit = true) : isStripChar c = false := by
  simp only [isStripChar, Bool.or_eq_false_iff, decide_eq_false_iff_not]
  refine ⟨⟨⟨?_, ?_⟩, ?_⟩, ?_⟩ <;> intro heq <;> rw [heq] at h <;> exact absurd h (by decide)

theorem digitsVal_append_digit (l : Line) (c : Char) :
    digitsVal (l ++ [c]) = 10 * digitsVal l + (c.toNat - 48) := by
  simp [digitsVal, List.foldl_append]

theorem natToDigitsAux_spec (fuel : ℕ) : ∀ n : ℕ, n ≤ fuel →
    digitsVal (natToDigitsAux fuel n) = n ∧
    (∀ c ∈ natToDigitsAux fuel n, c.isDigit = true) := by
  induction fuel with
  | zero =>
    intro n h
    have : n = 0 := Nat.le_zero.mp h
    subst this
    exact ⟨rfl, by simp [natToDigitsAux]⟩
  | succ fuel ih =>
    intro n h
    by_cases hn : n = 0
    · subst hn
      simp [natToDigitsAux, digitsVal]
    · have hdiv : n / 10 ≤ fuel := by
        have := Nat.div_lt_self (Nat.pos_of_ne_zero hn) (by norm_num : 1 < 10)
        omega
      obtain ⟨ihv, ihd⟩ := ih (n / 10) hdiv
      constructor
      · simp only [natToDigitsAux, if_neg hn]
        rw [digitsVal_append_digit, ihv, dc_toNat (Nat.mod_lt n (by norm_num))]
        omega
      · simp only [natToDigitsAux, if_neg hn]
        intro c hc
        rcases List.mem_append.mp hc with hc | hc
        · exact ihd c hc
        · simp only [List.mem_singleton] at hc
          subst hc
          exact dc_isDigit (Nat.mod_lt n (by norm_num))

theorem natToDigits_spec (n : ℕ) :
    digitsVal (natToDigits n) = n ∧
    (∀ c ∈ natToDigits n, c.isDigit = true) ∧
    natToDigits n ≠ [] := by
  by_cases hn : n = 0
  · subst hn
    exact ⟨by decide, by decide, by decide⟩
  · unfold natToDigits
    rw [if_neg hn]
    obtain ⟨hv, hd⟩ := natToDigitsAux_spec (n + 1) n (by omega)
    refine ⟨hv, hd, ?_⟩
    simp only [natToDigitsAux, if_neg hn]
    simp

theorem digitsNat?_natToDigits (n : ℕ) : digitsNat? (natToDigits n) = some n := by
  obtain ⟨hv, hd, hne⟩ := natToDigits_spec n
  unfold digitsNat?
  rw [if_pos, hv]
  rw [Bool.and_eq_true]
  constructor
  · rw [Bool.not_eq_true']
    exact List.isEmpty_eq_false.mpr hne
  · rw [List.all_eq_true]
    exact hd

theorem pyStrip_of_no_ws {l : Line} (h : ∀ c ∈ l, c.isWhitespace = false) : pyStrip l = l := by
  apply pyStrip_eq_self
  · intro c hc
    exact h c (List.mem_of_mem_head? hc)
  · intro c hc
    exact h c (List.mem_of_mem_getLast? hc)

theorem pyInt?_natToDigits (n : ℕ) : pyInt? (natToDigits n) = some (n : ℤ) := by
  obtain ⟨hv, hd, hne⟩ := natToDigits_spec n
  unfold pyInt?
  rw [pyStrip_of_no_ws (fun c hc => digit_not_ws (hd c hc))]
  cases hnd : natToDigits n with
  | nil => exact absurd hnd hne
  | cons c ds =>
    have hcd : c.isDigit = true := hd c (by rw [hnd]; exact List.mem_cons_self c ds)
    dsimp only
    rw [if_neg (isDigit_ne hcd (by decide)), if_neg (isDigit_ne hcd (by decide)), ← hnd,
      digitsNat?_natToDigits]
    rfl

theorem renderNum_chars (d : ℤ) :
    ∀ c ∈ renderNum d, c.isDigit = true ∨ c = '.' ∨ c = '-' := by
  intro c hc
  unfold renderNum at hc
  rcases List.mem_append.mp hc with hc | hc
  · rcases List.mem_append.mp hc with hc | hc
    · split at hc
      · simp only [List.mem_singleton] at hc
        subst hc
        right; right; rfl
      · simp at hc
    · left
      exact (natToDigits_spec _).2.1 c hc
  · split at hc
    · simp only [List.mem_cons, List.not_mem_nil, or_false] at hc
      rcases hc with rfl | rfl
      · right; left; rfl
      · left; decide
    · split at hc
      · simp only [List.mem_cons, List.not_mem_nil, or_false] at hc
        rcases hc with rfl | rfl
        · right; left; rfl
        · left
          exact dc_isDigit (by omega)
      · simp only [List.mem_cons, List.not_mem_nil, or_false] at hc
        rcases hc with rfl | rfl | rfl
        · right; left; rfl
        · left
          exact dc_isDigit (by omega)
        · left
          exact dc_isDigit (by omega)

theorem renderNum_no_ws (d : ℤ) : ∀ c ∈ renderNum d, c.isWhitespace = false := by
  intro c hc
  rcases renderNum_chars d c hc with h | rfl | rfl
  · exact digit_not_ws h
  · decide
  · decide

theorem renderNum_no_comma (d : ℤ) : ∀ c ∈ renderNum d, c ≠ ',' := by
  intro c hc
  rcases renderNum_chars d c hc with h | rfl | rfl
  · exact isDigit_ne h (by decide)
  · decide
  · decide

theorem renderNum_not_strip (d : ℤ) : ∀ c ∈ renderNum d, isStripChar c = false := by
  intro c hc
  rcases renderNum_chars d c hc with h | rfl | rfl
  · exact digit_not_strip h
  · decide
  · decide

theorem renderNum_ne_nil (d : ℤ) : renderNum d ≠ [] := by
  unfold renderNum
  intro h
  rcases List.append_eq_nil.mp h with ⟨h1, h2⟩
  rcases List.append_eq_nil.mp h1 with ⟨-, h3⟩
  exact (natToDigits_spec _).2.2 h3

theorem takeWhile_append_all {p : Char → Bool} {l₁ : Line} (l₂ : Line)
    (h : ∀ c ∈ l₁, p c = true) :
    List.takeWhile p (l₁ ++ l₂) = l₁ ++ List.takeWhile p l₂ := by
  induction l₁ with
  | nil => rfl
  | cons c t ih =>
    simp only [List.cons_append, List.takeWhile_cons, h c (List.mem_cons_self c t), if_true]
    rw [ih (fun x hx => h x (List.mem_cons_of_mem c hx))]

theorem takeWhile_cons_neg {p : Char → Bool} {c : Char} (l : Line) (h : p c = false) :
    List.takeWhile p (c :: l) = [] := by
  simp [List.takeWhile_cons, h]

theorem pyFloatCore_frac (ip : ℕ) (fp : Line) (hfp : ∀ c ∈ fp, c.isDigit = true) :
    pyFloatCore? (natToDigits ip ++ '.' :: fp) =
      some ((ip : ℚ) + (digitsVal fp : ℚ) / (10 : ℚ) ^ fp.length) := by
  obtain ⟨hv, hd, hne'⟩ := natToDigits_spec ip
  unfold pyFloatCore?
  rw [takeWhile_append_all _ hd, dropWhile_append_all _ hd,
    takeWhile_cons_neg _ (by decide), dropWhile_cons_neg _ (by decide)]
  dsimp only
  rw [List.append_nil, if_pos rfl, if_pos, hv]
  rw [Bool.and_eq_true]
  constructor
  · rw [List.all_eq_true]
    exact hfp
  · rw [List.isEmpty_eq_false.mpr hne']
    rfl

theorem digitsVal_single (c : Char) : digitsVal [c] = c.toNat - 48 := by
  simp [digitsVal]

theorem digitsVal_pair (c1 c2 : Char) :
    digitsVal [c1, c2] = 10 * (c1.toNat - 48) + (c2.toNat - 48) := by
  simp [digitsVal]

theorem pyFloatCore_renderBody (a : ℕ) :
    pyFloatCore? (natToDigits (a / 100) ++
      (if a % 100 = 0 then ['.', '0']
       else if a % 10 = 0 then ['.', digitChar (a % 100 / 10)]
       else ['.', digitChar (a % 100 / 10), digitChar (a % 10)])) = some ((a : ℚ) / 100) := by
  have hdm : 100 * (a / 100) + a % 100 = a := Nat.div_add_mod a 100
  have hmm : a % 100 % 10 = a % 10 := Nat.mod_mod_of_dvd a (by norm_num)
  by_cases h100 : a % 100 = 0
  · rw [if_pos h100]
    rw [show (['.', '0'] : Line) = '.' :: ['0'] from rfl,
      pyFloatCore_frac (a / 100) ['0'] (by decide)]
    have hval : digitsVal ['0'] = 0 := by decide
    rw [hval]
    congr 1
    have hae : (a : ℚ) = 100 * ((a / 100 : ℕ) : ℚ) := by
      have : a = 100 * (a / 100) := by omega
      exact_mod_cast this
    rw [hae]
    push_cast
    ring
  · rw [if_neg h100]
    by_cases h10 : a % 10 = 0
    · rw [if_pos h10]
      have hx : a % 100 / 10 < 10 := by omega
      rw [show ('.' :: [digitChar (a % 100 / 10)] : Line) =
        '.' :: [digitChar (a % 100 / 10)] from rfl]
      rw [pyFloatCore_frac (a / 100) [digitChar (a % 100 / 10)]
        (by intro c hc; simp only [List.mem_singleton] at hc; subst hc; exact dc_isDigit hx)]
      rw [digitsVal_single, dc_toNat hx]
      congr 1
      have hkey : a = 100 * (a / 100) + 10 * (a % 100 / 10) := by omega
      have hkeyq : (a : ℚ) = 100 * ((a / 100 : ℕ) : ℚ) + 10 * ((a % 100 / 10 : ℕ) : ℚ) := by
        exact_mod_cast hkey
      rw [show ((48 : ℕ) + a % 100 / 10 - 48) = a % 100 / 10 by omega, hkeyq]
      simp only [List.length_cons, List.length_nil]
      push_cast
      ring
    · rw [if_neg h10]
      have hx : a % 100 / 10 < 10 := by omega
      have hy : a % 10 < 10 := Nat.mod_lt a (by norm_num)
      rw [pyFloatCore_frac (a / 100) [digitChar (a % 100 / 10), digitChar (a % 10)]
        (by
          intro c hc
          simp only [List.mem_cons, List.not_mem_nil, or_false] at hc
          rcases hc with rfl | rfl
          · exact dc_isDigit hx
          · exact dc_isDigit hy)]
      rw [digitsVal_pair, dc_toNat hx, dc_toNat hy]
      congr 1
      have hkey : a = 100 * (a / 100) + (10 * (a % 100 / 10) + a % 10) := by omega
      have hkeyq : (a : ℚ) =
          100 * ((a / 100 : ℕ) : ℚ) + (10 * ((a % 100 / 10 : ℕ) : ℚ) + ((a % 10 : ℕ) : ℚ)) := by
        exact_mod_cast hkey
      rw [show ((48 : ℕ) + a % 100 / 10 - 48) = a % 100 / 10 by omega,
        show ((48 : ℕ) + a % 10 - 48) = a % 10 by omega, hkeyq]
      simp only [List.length_cons, List.length_nil]
      push_cast
      ring

theorem pyFloat?_renderNum (d : ℤ) : pyFloat? (renderNum d) = some (toQ d) := by
  have hbody := pyFloatCore_renderBody d.natAbs
  unfold pyFloat?
  rw [pyStrip_of_no_ws (renderNum_no_ws d)]
  by_cases hd : d < 0
  · have hr : renderNum d = '-' :: (natToDigits (d.natAbs / 100) ++
        (if d.natAbs % 100 = 0 then ['.', '0']
         else if d.natAbs % 10 = 0 then ['.', digitChar (d.natAbs % 100 / 10)]
         else ['.', digitChar (d.natAbs % 100 / 10), digitChar (d.natAbs % 10)])) := by
      unfold renderNum
      rw [if_pos hd]
      rfl
    rw [hr]
    dsimp only
    rw [if_pos rfl, hbody]
    have hneg : ((d.natAbs : ℚ)) = -(d : ℚ) := by
      have h1 : ((d.natAbs : ℤ)) = -d := Int.ofNat_natAbs_of_nonpos (le_of_lt hd)
      calc ((d.natAbs : ℚ)) = (((d.natAbs : ℤ) : ℚ)) := (Int.cast_natCast d.natAbs).symm
      _ = ((-d : ℤ) : ℚ) := by rw [h1]
      _ = -(d : ℚ) := by push_cast; ring
    show some (-((d.natAbs : ℚ) / 100)) = some (toQ d)
    unfold toQ
    rw [hneg]
    congr 1
    ring
  · have hr : renderNum d = natToDigits (d.natAbs / 100) ++
        (if d.natAbs % 100 = 0 then ['.', '0']
         else if d.natAbs % 10 = 0 then ['.', digitChar (d.natAbs % 100 / 10)]
         else ['.', digitChar (d.natAbs % 100 / 10), digitChar (d.natAbs % 10)]) := by
      unfold renderNum
      rw [if_neg hd]
      rfl
    rw [hr]
    obtain ⟨-, hdg, hne⟩ := natToDigits_spec (d.natAbs / 100)
    cases hnd : natToDigits (d.natAbs / 100) with
    | nil => exact absurd hnd hne
    | cons c ds =>
      have hcd : c.isDigit = true := hdg c (by rw [hnd]; exact List.mem_cons_self c ds)
      rw [List.cons_append]
      dsimp only
      rw [if_neg (isDigit_ne hcd (by decide)), if_neg (isDigit_ne hcd (by decide)),
        ← List.cons_append, ← hnd, hbody]
      have hpos : ((d.natAbs : ℚ)) = (d : ℚ) := by
        have h1 : ((d.natAbs : ℤ)) = d := Int.natAbs_of_nonneg (not_lt.mp hd)
        calc ((d.natAbs : ℚ)) = (((d.natAbs : ℤ) : ℚ)) := (Int.cast_natCast d.natAbs).symm
        _ = ((d : ℤ) : ℚ) := by rw [h1]
        _ = (d : ℚ) := rfl
      unfold toQ
      rw [hpos]

theorem splitComma_no_comma {w : Line} (h : ∀ c ∈ w, c ≠ ',') : splitComma w = [w] := by
  induction w with
  | nil => rfl
  | cons c t ih =>
    have hc := h c (List.mem_cons_self c t)
    simp only [splitComma, if_neg hc]
    rw [ih (fun x hx => h x (List.mem_cons_of_mem c hx))]

theorem splitComma_append {w : Line} (rest : Line) (h : ∀ c ∈ w, c ≠ ',') :
    splitComma (w ++ ',' :: rest) = w :: splitComma rest := by
  induction w with
  | nil =>
    simp [splitComma]
  | cons c t ih =>
    have hc := h c (List.mem_cons_self c t)
    simp only [List.cons_append, splitComma, if_neg hc, List.append_eq]
    rw [ih (fun x hx => h x (List.mem_cons_of_mem c hx))]

theorem stripBraces_wrap {body : Line} (t2 : Line) (hne : body ≠ [])
    (h1 : ∀ c, body.head? = some c → isStripChar c = false)
    (h2 : ∀ c, body.getLast? = some c → isStripChar c = false)
    (ht2 : ∀ c ∈ t2, isStripChar c = true) :
    stripBraces (lbrace :: body ++ t2) = body := by
  unfold stripBraces
  cases body with
  | nil => exact absurd rfl hne
  | cons b bt =>
    have hlb : ∀ c ∈ ([lbrace] : Line), isStripChar c = true := by
      intro c hc
      simp only [List.mem_singleton] at hc
      subst hc
      decide
    have hstep1 : List.dropWhile isStripChar (lbrace :: (b :: bt) ++ t2) =
        List.dropWhile isStripChar ((b :: bt) ++ t2) := by
      rw [show (lbrace :: (b :: bt) ++ t2) = [lbrace] ++ ((b :: bt) ++ t2) by simp]
      exact dropWhile_append_all _ hlb
    rw [hstep1, List.cons_append, dropWhile_cons_neg _ (h1 b rfl)]
    rw [show (b :: (bt ++ t2)) = (b :: bt) ++ t2 by simp, List.reverse_append]
    rw [dropWhile_append_all _ (by intro c hc; exact ht2 c (List.mem_reverse.mp hc))]
    rw [dropWhile_reverse_self h2, List.reverse_reverse]

theorem renderVec3_ne_nil (v : V3Z) : renderVec3 v ≠ [] := by
  unfold renderVec3
  simp

theorem readVec3_renderVec3 (v : V3Z) (t2 : Line) (ht2 : ∀ c ∈ t2, isStripChar c = true) :
    readVec3 (renderVec3 v ++ t2) = .ok (some (toQ3 v)) := by
  obtain ⟨cx, csx, hcx⟩ : ∃ c cs, renderNum v.1 = c :: cs := by
    cases h : renderNum v.1 with
    | nil => exact absurd h (renderNum_ne_nil _)
    | cons c cs => exact ⟨c, cs, rfl⟩
  have hbody : renderVec3 v ++ t2 =
      lbrace :: (renderNum v.1 ++ ',' :: (renderNum v.2.1 ++ ',' :: renderNum v.2.2)) ++
        ([rbrace] ++ t2) := by
    unfold renderVec3
    simp
  have hh : ∀ c, (renderNum v.1 ++ ',' :: (renderNum v.2.1 ++ ',' :: renderNum v.2.2)).head? =
      some c → isStripChar c = false := by
    intro c hc
    rw [hcx] at hc
    simp only [List.cons_append, List.head?_cons, Option.some_inj] at hc
    subst hc
    exact renderNum_not_strip v.1 cx (by rw [hcx]; exact List.mem_cons_self cx csx)
  have hl : ∀ c, (renderNum v.1 ++ ',' :: (renderNum v.2.1 ++ ',' :: renderNum v.2.2)).getLast? =
      some c → isStripChar c = false := by
    intro c hc
    rw [show (renderNum v.1 ++ ',' :: (renderNum v.2.1 ++ ',' :: renderNum v.2.2)) =
        (renderNum v.1 ++ ',' :: renderNum v.2.1 ++ [',']) ++ renderNum v.2.2 by simp] at hc
    rw [List.getLast?_append_of_ne_nil _ (renderNum_ne_nil v.2.2)] at hc
    exact renderNum_not_strip v.2.2 c (List.mem_of_mem_getLast? hc)
  have ht : ∀ c ∈ [rbrace] ++ t2, isStripChar c = true := by
    intro c hc
    rcases List.mem_append.mp hc with hc | hc
    · simp only [List.mem_singleton] at hc
      subst hc
      decide
    · exact ht2 c hc
  unfold readVec3
  rw [hbody, stripBraces_wrap _ (by simp [hcx]) hh hl ht]
  rw [splitComma_append _ (renderNum_no_comma v.1),
    splitComma_append _ (renderNum_no_comma v.2.1),
    splitComma_no_comma (renderNum_no_comma v.2.2)]
  dsimp only
  rw [pyFloat?_renderNum, pyFloat?_renderNum, pyFloat?_renderNum]
  rfl

theorem renderVec2_ne_nil (v : V2Z) : renderVec2 v ≠ [] := by
  unfold renderVec2
  simp

theorem readVec2_renderVec2 (v : V2Z) (t2 : Line) (ht2 : ∀ c ∈ t2, isStripChar c = true) :
    readVec2 (renderVec2 v ++ t2) = .ok (some (toQ2 v)) := by
  obtain ⟨cx, csx, hcx⟩ : ∃ c cs, renderNum v.1 = c :: cs := by
    cases h : renderNum v.1 with
    | nil => exact absurd h (renderNum_ne_nil _)
    | cons c cs => exact ⟨c, cs, rfl⟩
  have hbody : renderVec2 v ++ t2 =
      lbrace :: (renderNum v.1 ++ ',' :: renderNum v.2) ++ ([rbrace] ++ t2) := by
    unfold renderVec2
    simp
  have hh : ∀ c, (renderNum v.1 ++ ',' :: renderNum v.2).head? = some c →
      isStripChar c = false := by
    intro c hc
    rw [hcx] at hc
    simp only [List.cons_append, List.head?_cons, Option.some_inj] at hc
    subst hc
    exact renderNum_not_strip v.1 cx (by rw [hcx]; exact List.mem_cons_self cx csx)
  have hl : ∀ c, (renderNum v.1 ++ ',' :: renderNum v.2).getLast? = some c →
      isStripChar c = false := by
    intro c hc
    rw [show (renderNum v.1 ++ ',' :: renderNum v.2) =
        (renderNum v.1 ++ [',']) ++ renderNum v.2 by simp] at hc
    rw [List.getLast?_append_of_ne_nil _ (renderNum_ne_nil v.2)] at hc
    exact renderNum_not_strip v.2 c (List.mem_of_mem_getLast? hc)
  have ht : ∀ c ∈ [rbrace] ++ t2, isStripChar c = true := by
    intro c hc
    rcases List.mem_append.mp hc with hc | hc
    · simp only [List.mem_singleton] at hc
      subst hc
      decide
    · exact ht2 c hc
  unfold readVec2
  rw [hbody, stripBraces_wrap _ (by simp [hcx]) hh hl ht]
  rw [splitComma_append _ (renderNum_no_comma v.1),
    splitComma_no_comma (renderNum_no_comma v.2)]
  dsimp only
  rw [pyFloat?_renderNum, pyFloat?_renderNum]
  rfl

theorem natToDigits_no_comma (n : ℕ) : ∀ c ∈ natToDigits n, c ≠ ',' := fun c hc =>
  isDigit_ne ((natToDigits_spec n).2.1 c hc) (by decide)

theorem natToDigits_not_strip (n : ℕ) : ∀ c ∈ natToDigits n, isStripChar c = false :=
  fun c hc => digit_not_strip ((natToDigits_spec n).2.1 c hc)

theorem readInts_renderQuad (q : Quad) (t2 : Line) (ht2 : ∀ c ∈ t2, isStripChar c = true) :
    readInts (renderQuad q ++ t2) = some (quadToZ q) := by
  obtain ⟨cx, csx, hcx⟩ : ∃ c cs, natToDigits q.1 = c :: cs := by
    cases h : natToDigits q.1 with
    | nil => exact absurd h (natToDigits_spec q.1).2.2
    | cons c cs => exact ⟨c, cs, rfl⟩
  have hbody : renderQuad q ++ t2 =
      lbrace :: (natToDigits q.1 ++ ',' :: (natToDigits q.2.1 ++ ',' ::
        (natToDigits q.2.2.1 ++ ',' :: natToDigits q.2.2.2))) ++ ([rbrace] ++ t2) := by
    unfold renderQuad
    simp
  have hh : ∀ c, (natToDigits q.1 ++ ',' :: (natToDigits q.2.1 ++ ',' ::
      (natToDigits q.2.2.1 ++ ',' :: natToDigits q.2.2.2))).head? = some c →
      isStripChar c = false := by
    intro c hc
    rw [hcx] at hc
    simp only [List.cons_append, List.head?_cons, Option.some_inj] at hc
    subst hc
    exact natToDigits_not_strip q.1 cx (by rw [hcx]; exact List.mem_cons_self cx csx)
  have hl : ∀ c, (natToDigits q.1 ++ ',' :: (natToDigits q.2.1 ++ ',' ::
      (natToDigits q.2.2.1 ++ ',' :: natToDigits q.2.2.2))).getLast? = some c →
      isStripChar c = false := by
    intro c hc
    rw [show (natToDigits q.1 ++ ',' :: (natToDigits q.2.1 ++ ',' ::
        (natToDigits q.2.2.1 ++ ',' :: natToDigits q.2.2.2))) =
        (natToDigits q.1 ++ ',' :: natToDigits q.2.1 ++ ',' :: natToDigits q.2.2.1 ++ [',']) ++
          natToDigits q.2.2.2 by simp] at hc
    rw [List.getLast?_append_of_ne_nil _ (natToDigits_spec q.2.2.2).2.2] at hc
    exact natToDigits_not_strip q.2.2.2 c (List.mem_of_mem_getLast? hc)
  have ht : ∀ c ∈ [rbrace] ++ t2, isStripChar c = true := by
    intro c hc
    rcases List.mem_append.mp hc with hc | hc
    · simp only [List.mem_singleton] at hc
      subst hc
      decide
    · exact ht2 c hc
  unfold readInts
  rw [hbody, stripBraces_wrap _ (by simp [hcx]) hh hl ht]
  rw [splitComma_append _ (natToDigits_no_comma q.1),
    splitComma_append _ (natToDigits_no_comma q.2.1),
    splitComma_append _ (natToDigits_no_comma q.2.2.1),
    splitComma_no_comma (natToDigits_no_comma q.2.2.2)]
  simp only [List.mapM_cons, List.mapM_nil, pyInt?_natToDigits, Option.pure_def,
    Option.bind_some, Option.bind_eq_bind]
  rfl

theorem conds_false_of_chars {l : Line}
    (h : ∀ c ∈ l, c.isDigit = true ∨ c = '.' ∨ c = '-' ∨ c = ',' ∨ c = lbrace ∨ c = rbrace) :
    hdrVertsCond l = false ∧ hdrNormsCond l = false ∧ hdrUvCond l = false ∧
    hdrViCond l = false ∧ hdrUviCond l = false ∧ hdrNiCond l = false := by
  have hS : ∀ c ∈ l, c ≠ 'S' := by
    intro c hc
    rcases h c hc with hd | rfl | rfl | rfl | rfl | rfl
    · exact isDigit_ne hd (by decide)
    all_goals decide
  have hI : ∀ c ∈ l, c ≠ 'I' := by
    intro c hc
    rcases h c hc with hd | rfl | rfl | rfl | rfl | rfl
    · exact isDigit_ne hd (by decide)
    all_goals decide
  have hii : ∀ c ∈ l, c ≠ 'i' := by
    intro c hc
    rcases h c hc with hd | rfl | rfl | rfl | rfl | rfl
    · exact isDigit_ne hd (by decide)
    all_goals decide
  refine ⟨?_, ?_, ?_, ?_, ?_, ?_⟩
  · unfold hdrVertsCond
    rw [not_containsSub (show 'S' ∈ svectorTok by decide) hS]
    rfl
  · unfold hdrNormsCond
    rw [not_containsSub (show 'S' ∈ svectorTok by decide) hS]
    rfl
  · unfold hdrUvCond
    rw [not_containsSub (show 'S' ∈ svectorTok by decide) hS]
    rfl
  · unfold hdrViCond
    rw [not_containsSub (show 'I' ∈ indexTok by decide) hI]
    rfl
  · unfold hdrUviCond
    rw [not_containsSub (show 'I' ∈ indexTok by decide) hI]
    rfl
  · unfold hdrNiCond
    rw [not_containsSub (show 'i' ∈ intTok by decide) hii]
    rfl

theorem handleVertexArray_noop (st : PState) (line : Line) (h : st.in_vertex_array = false) :
    handleVertexArray st line = .ok st := by
  simp [handleVertexArray, h]

theorem handleNormalArray_noop (st : PState) (line : Line) (h : st.in_normal_array = false) :
    handleNormalArray st line = .ok st := by
  simp [handleNormalArray, h]

theorem handleUvArray_noop (st : PState) (line : Line) (h : st.in_uv_array = false) :
    handleUvArray st line = .ok st := by
  simp [handleUvArray, h]

theorem handleVertexIndices_noop (st : PState) (line : Line)
    (h : st.in_vertex_indices = false) : handleVertexIndices st line = .ok st := by
  simp [handleVertexIndices, h]

theorem handleUvIndices_noop (st : PState) (line : Line) (h : st.in_uv_indices = false) :
    handleUvIndices st line = .ok st := by
  simp [handleUvIndices, h]

theorem handleNormalIndices_noop (st : PState) (line : Line)
    (h : st.in_normal_indices = false) : handleNormalIndices st line = .ok st := by
  simp [handleNormalIndices, h]

theorem closeTok_eq : closeTok = rbrace :: [';'] := by decide

theorem isPrefixOf_closeTok_lbrace (l : Line) :
    List.isPrefixOf closeTok (lbrace :: l) = false := by
  rw [closeTok_eq]
  simp only [List.isPrefixOf, Bool.and_eq_false_iff]
  left
  decide

theorem renderVec3_chars (v : V3Z) : ∀ c ∈ renderVec3 v,
    c.isDigit = true ∨ c = '.' ∨ c = '-' ∨ c = ',' ∨ c = lbrace ∨ c = rbrace := by
  intro c hc
  unfold renderVec3 at hc
  simp only [List.append_assoc, List.cons_append, List.nil_append, List.mem_cons,
    List.mem_append, List.not_mem_nil, or_false, List.mem_singleton] at hc
  rcases hc with rfl | hc | rfl | hc | rfl | hc | rfl
  · right; right; right; right; left; rfl
  · rcases renderNum_chars v.1 c hc with h | rfl | rfl
    · left; exact h
    · right; left; rfl
    · right; right; left; rfl
  · right; right; right; left; rfl
  · rcases renderNum_chars v.2.1 c hc with h | rfl | rfl
    · left; exact h
    · right; left; rfl
    · right; right; left; rfl
  · right; right; right; left; rfl
  · rcases renderNum_chars v.2.2 c hc with h | rfl | rfl
    · left; exact h
    · right; left; rfl
    · right; right; left; rfl
  · right; right; right; right; right; rfl

theorem renderVec2_chars (v : V2Z) : ∀ c ∈ renderVec2 v,
    c.isDigit = true ∨ c = '.' ∨ c = '-' ∨ c = ',' ∨ c = lbrace ∨ c = rbrace := by
  intro c hc
  unfold renderVec2 at hc
  simp only [List.append_assoc, List.cons_append, List.nil_append, List.mem_cons,
    List.mem_append, List.not_mem_nil, or_false, List.mem_singleton] at hc
  rcases hc with rfl | hc | rfl | hc | rfl
  · right; right; right; right; left; rfl
  · rcases renderNum_chars v.1 c hc with h | rfl | rfl
    · left; exact h
    · right; left; rfl
    · right; right; left; rfl
  · right; right; right; left; rfl
  · rcases renderNum_chars v.2 c hc with h | rfl | rfl
    · left; exact h
    · right; left; rfl
    · right; right; left; rfl
  · right; right; right; right; right; rfl

theorem renderQuad_chars (q : Quad) : ∀ c ∈ renderQuad q,
    c.isDigit = true ∨ c = '.' ∨ c = '-' ∨ c = ',' ∨ c = lbrace ∨ c = rbrace := by
  intro c hc
  unfold renderQuad at hc
  simp only [List.append_assoc, List.cons_append, List.nil_append, List.mem_cons,
    List.mem_append, List.not_mem_nil, or_false, List.mem_singleton] at hc
  rcases hc with rfl | hc | rfl | hc | rfl | hc | rfl | hc | rfl
  · right; right; right; right; left; rfl
  · left; exact (natToDigits_spec q.1).2.1 c hc
  · right; right; right; left; rfl
  · left; exact (natToDigits_spec q.2.1).2.1 c hc
  · right; right; right; left; rfl
  · left; exact (natToDigits_spec q.2.2.1).2.1 c hc
  · right; right; right; left; rfl
  · left; exact (natToDigits_spec q.2.2.2).2.1 c hc
  · right; right; right; right; right; rfl

theorem natToDigits_chars_class (n : ℕ) : ∀ c ∈ natToDigits n,
    c.isDigit = true ∨ c = '.' ∨ c = '-' ∨ c = ',' ∨ c = lbrace ∨ c = rbrace :=
  fun c hc => Or.inl ((natToDigits_spec n).2.1 c hc)

theorem class_not_ws {c : Char}
    (h : c.isDigit = true ∨ c = '.' ∨ c = '-' ∨ c = ',' ∨ c = lbrace ∨ c = rbrace) :
    c.isWhitespace = false := by
  rcases h with h | rfl | rfl | rfl | rfl | rfl
  · exact digit_not_ws h
  all_goals decide

theorem parseStep_vertex_data (st : PState) (v : V3Z) (t2 : Line)
    (hflag : st.in_vertex_array = true)
    (hf2 : st.in_normal_array = false) (hf3 : st.in_uv_array = false)
    (hf4 : st.in_vertex_indices = false) (hf5 : st.in_uv_indices = false)
    (hf6 : st.in_normal_indices = false)
    (ht2 : t2 = [] ∨ t2 = [',']) :
    parseStep st (indentChars ++ (renderVec3 v ++ t2)) =
      .ok { st with vertices := st.vertices ++ [toQ3 v] } := by
  have ht2' : ∀ c ∈ t2, isStripChar c = true := by
    rcases ht2 with rfl | rfl
    · intro c hc
      simp at hc
    · intro c hc
      simp only [List.mem_singleton] at hc
      subst hc
      decide
  have hchars : ∀ c ∈ renderVec3 v ++ t2,
      c.isDigit = true ∨ c = '.' ∨ c = '-' ∨ c = ',' ∨ c = lbrace ∨ c = rbrace := by
    intro c hc
    rcases List.mem_append.mp hc with hc | hc
    · exact renderVec3_chars v c hc
    · rcases ht2 with rfl | rfl
      · simp at hc
      · simp only [List.mem_singleton] at hc
        subst hc
        right; right; right; left; rfl
  have hcons : renderVec3 v ++ t2 = lbrace :: ((renderNum v.1 ++ [','] ++
      renderNum v.2.1 ++ [','] ++ renderNum v.2.2 ++ [rbrace]) ++ t2) := by
    unfold renderVec3
    simp
  have hline : pyStrip (indentChars ++ (renderVec3 v ++ t2)) = renderVec3 v ++ t2 := by
    apply pyStrip_indent_append
    · intro c hc
      exact class_not_ws (hchars c (List.mem_of_mem_head? hc))
    · intro c hc
      exact class_not_ws (hchars c (List.mem_of_mem_getLast? hc))
  obtain ⟨hc1, hc2, hc3, hc4, hc5, hc6⟩ := conds_false_of_chars hchars
  have hclose : List.isPrefixOf closeTok (renderVec3 v ++ t2) = false := by
    rw [hcons]
    exact isPrefixOf_closeTok_lbrace _
  have hdata : dataLineCond (renderVec3 v ++ t2) = true := by
    unfold dataLineCond
    rw [containsSub_singleton (show lbrace ∈ renderVec3 v ++ t2 by
        rw [hcons]; exact List.mem_cons_self _ _),
      containsSub_singleton (show rbrace ∈ renderVec3 v ++ t2 by
        apply List.mem_append_left
        unfold renderVec3
        simp)]
    rfl
  have hread := readVec3_renderVec3 v t2 ht2'
  have hh1 : handleVertexArray st (renderVec3 v ++ t2) =
      .ok { st with vertices := st.vertices ++ [toQ3 v] } := by
    unfold handleVertexArray
    rw [hflag, hclose, hdata, hread]
    rfl
  have hn2 := handleNormalArray_noop
    { st with vertices := st.vertices ++ [toQ3 v] } (renderVec3 v ++ t2) hf2
  have hn3 := handleUvArray_noop
    { st with vertices := st.vertices ++ [toQ3 v] } (renderVec3 v ++ t2) hf3
  have hn4 := handleVertexIndices_noop
    { st with vertices := st.vertices ++ [toQ3 v] } (renderVec3 v ++ t2) hf4
  have hn5 := handleUvIndices_noop
    { st with vertices := st.vertices ++ [toQ3 v] } (renderVec3 v ++ t2) hf5
  have hn6 := handleNormalIndices_noop
    { st with vertices := st.vertices ++ [toQ3 v] } (renderVec3 v ++ t2) hf6
  simp only [parseStep, hline, hc1, hc2, hc3, hc4, hc5, hc6, Bool.false_eq_true, if_false,
    hh1, hn2, hn3, hn4, hn5, hn6, bind, Except.bind]
  rfl

theorem isPrefixOf_closeTok_of_head {c : Char} (l : Line) (h : c = rbrace → False) :
    List.isPrefixOf closeTok (c :: l) = false := by
  rw [closeTok_eq]
  simp only [List.isPrefixOf, Bool.and_eq_false_iff]
  left
  rw [beq_eq_false_iff_ne]
  intro heq
  exact h heq.symm

theorem parseStep_normal_data (st : PState) (v : V3Z) (t2 : Line)
    (hflag : st.in_normal_array = true)
    (hf1 : st.in_vertex_array = false) (hf3 : st.in_uv_array = false) (hf4 : st.in_vertex_indices = false) (hf5 : st.in_uv_indices = false) (hf6 : st.in_normal_indices = false)
    (ht2 : t2 = [] ∨ t2 = [',']) :
    parseStep st (indentChars ++ (renderVec3 v ++ t2)) =
      .ok { st with normals := st.normals ++ [toQ3 v] } := by
  have ht2' : ∀ c ∈ t2, isStripChar c = true := by
    rcases ht2 with rfl | rfl
    · intro c hc
      simp at hc
    · intro c hc
      simp only [List.mem_singleton] at hc
      subst hc
      decide
  have hchars : ∀ c ∈ renderVec3 v ++ t2,
      c.isDigit = true ∨ c = '.' ∨ c = '-' ∨ c = ',' ∨ c = lbrace ∨ c = rbrace := by
    intro c hc
    rcases List.mem_append.mp hc with hc | hc
    · exact renderVec3_chars v c hc
    · rcases ht2 with rfl | rfl
      · simp at hc
      · simp only [List.mem_singleton] at hc
        subst hc
        right; right; right; left; rfl
  have hcons : ∃ r, renderVec3 v ++ t2 = lbrace :: r := by
    refine ⟨?_, ?_⟩
    · exact (renderVec3 v).tail ++ t2
    · unfold renderVec3
      simp
  obtain ⟨rtail, hcons⟩ := hcons
  have hline : pyStrip (indentChars ++ (renderVec3 v ++ t2)) = renderVec3 v ++ t2 := by
    apply pyStrip_indent_append
    · intro c hc
      exact class_not_ws (hchars c (List.mem_of_mem_head? hc))
    · intro c hc
      exact class_not_ws (hchars c (List.mem_of_mem_getLast? hc))
  obtain ⟨hc1, hc2, hc3, hc4, hc5, hc6⟩ := conds_false_of_chars hchars
  have hclose : List.isPrefixOf closeTok (renderVec3 v ++ t2) = false := by
    rw [hcons]
    exact isPrefixOf_closeTok_lbrace _
  have hdata : dataLineCond (renderVec3 v ++ t2) = true := by
    unfold dataLineCond
    rw [containsSub_singleton (show lbrace ∈ renderVec3 v ++ t2 by
        rw [hcons]; exact List.mem_cons_self _ _),
      containsSub_singleton (show rbrace ∈ renderVec3 v ++ t2 by
        apply List.mem_append_left
        unfold renderVec3
        simp)]
    rfl
  have hread := readVec3_renderVec3 v t2 ht2'
  have hh : handleNormalArray st (renderVec3 v ++ t2) =
      .ok { st with normals := st.normals ++ [toQ3 v] } := by
    unfold handleNormalArray
    rw [hflag, hclose, hdata, hread]
    rfl
  have hn1 := handleVertexArray_noop st (renderVec3 v ++ t2) hf1
  have hn3 := handleUvArray_noop
    { st with normals := st.normals ++ [toQ3 v] } (renderVec3 v ++ t2) hf3
  have hn4 := handleVertexIndices_noop
    { st with normals := st.normals ++ [toQ3 v] } (renderVec3 v ++ t2) hf4
  have hn5 := handleUvIndices_noop
    { st with normals := st.normals ++ [toQ3 v] } (renderVec3 v ++ t2) hf5
  have hn6 := handleNormalIndices_noop
    { st with normals := st.normals ++ [toQ3 v] } (renderVec3 v ++ t2) hf6
  simp only [parseStep, hline, hc1, hc2, hc3, hc4, hc5, hc6, Bool.false_eq_true, if_false,
    hh, hn1, hn3, hn4, hn5, hn6, bind, Except.bind]
  rfl

theorem parseStep_uv_data (st : PState) (v : V2Z) (t2 : Line)
    (hflag : st.in_uv_array = true)
    (hf1 : st.in_vertex_array = false) (hf2 : st.in_normal_array = false) (hf4 : st.in_vertex_indices = false) (hf5 : st.in_uv_indices = false) (hf6 : st.in_normal_indices = false)
    (ht2 : t2 = [] ∨ t2 = [',']) :
    parseStep st (indentChars ++ (renderVec2 v ++ t2)) =
      .ok { st with uvs := st.uvs ++ [toQ2 v] } := by
  have ht2' : ∀ c ∈ t2, isStripChar c = true := by
    rcases ht2 with rfl | rfl
    · intro c hc
      simp at hc
    · intro c hc
      simp only [List.mem_singleton] at hc
      subst hc
      decide
  have hchars : ∀ c ∈ renderVec2 v ++ t2,
      c.isDigit = true ∨ c = '.' ∨ c = '-' ∨ c = ',' ∨ c = lbrace ∨ c = rbrace := by
    intro c hc
    rcases List.mem_append.mp hc with hc | hc
    · exact renderVec2_chars v c hc
    · rcases ht2 with rfl | rfl
      · simp at hc
      · simp only [List.mem_singleton] at hc
        subst hc
        right; right; right; left; rfl
  have hcons : ∃ r, renderVec2 v ++ t2 = lbrace :: r := by
    refine ⟨?_, ?_⟩
    · exact (renderVec2 v).tail ++ t2
    · unfold renderVec2
      simp
  obtain ⟨rtail, hcons⟩ := hcons
  have hline : pyStrip (indentChars ++ (renderVec2 v ++ t2)) = renderVec2 v ++ t2 := by
    apply pyStrip_indent_append
    · intro c hc
      exact class_not_ws (hchars c (List.mem_of_mem_head? hc))
    · intro c hc
      exact class_not_ws (hchars c (List.mem_of_mem_getLast? hc))
  obtain ⟨hc1, hc2, hc3, hc4, hc5, hc6⟩ := conds_false_of_chars hchars
  have hclose : List.isPrefixOf closeTok (renderVec2 v ++ t2) = false := by
    rw [hcons]
    exact isPrefixOf_closeTok_lbrace _
  have hdata : dataLineCond (renderVec2 v ++ t2) = true := by
    unfold dataLineCond
    rw [containsSub_singleton (show lbrace ∈ renderVec2 v ++ t2 by
        rw [hcons]; exact List.mem_cons_self _ _),
      containsSub_singleton (show rbrace ∈ renderVec2 v ++ t2 by
        apply List.mem_append_left
        unfold renderVec2
        simp)]
    rfl
  have hread := readVec2_renderVec2 v t2 ht2'
  have hh : handleUvArray st (renderVec2 v ++ t2) =
      .ok { st with uvs := st.uvs ++ [toQ2 v] } := by
    unfold handleUvArray
    rw [hflag, hclose, hdata, hread]
    rfl
  have hn1 := handleVertexArray_noop st (renderVec2 v ++ t2) hf1
  have hn2 := handleNormalArray_noop st (renderVec2 v ++ t2) hf2
  have hn4 := handleVertexIndices_noop
    { st with uvs := st.uvs ++ [toQ2 v] } (renderVec2 v ++ t2) hf4
  have hn5 := handleUvIndices_noop
    { st with uvs := st.uvs ++ [toQ2 v] } (renderVec2 v ++ t2) hf5
  have hn6 := handleNormalIndices_noop
    { st with uvs := st.uvs ++ [toQ2 v] } (renderVec2 v ++ t2) hf6
  simp only [parseStep, hline, hc1, hc2, hc3, hc4, hc5, hc6, Bool.false_eq_true, if_false,
    hh, hn1, hn2, hn4, hn5, hn6, bind, Except.bind]
  rfl

theorem parseStep_vi_data (st : PState) (v : Quad) (t2 : Line)
    (hflag : st.in_vertex_indices = true)
    (hf1 : st.in_vertex_array = false) (hf2 : st.in_normal_array = false) (hf3 : st.in_uv_array = false) (hf5 : st.in_uv_indices = false) (hf6 : st.in_normal_indices = false)
    (ht2 : t2 = [] ∨ t2 = [',']) :
    parseStep st (indentChars ++ (renderQuad v ++ t2)) =
      .ok { st with vertex_indices := st.vertex_indices ++ [quadToZ v] } := by
  have ht2' : ∀ c ∈ t2, isStripChar c = true := by
    rcases ht2 with rfl | rfl
    · intro c hc
      simp at hc
    · intro c hc
      simp only [List.mem_singleton] at hc
      subst hc
      decide
  have hchars : ∀ c ∈ renderQuad v ++ t2,
      c.isDigit = true ∨ c = '.' ∨ c = '-' ∨ c = ',' ∨ c = lbrace ∨ c = rbrace := by
    intro c hc
    rcases List.mem_append.mp hc with hc | hc
    · exact renderQuad_chars v c hc
    · rcases ht2 with rfl | rfl
      · simp at hc
      · simp only [List.mem_singleton] at hc
        subst hc
        right; right; right; left; rfl
  have hcons : ∃ r, renderQuad v ++ t2 = lbrace :: r := by
    refine ⟨?_, ?_⟩
    · exact (renderQuad v).tail ++ t2
    · unfold renderQuad
      simp
  obtain ⟨rtail, hcons⟩ := hcons
  have hline : pyStrip (indentChars ++ (renderQuad v ++ t2)) = renderQuad v ++ t2 := by
    apply pyStrip_indent_append
    · intro c hc
      exact class_not_ws (hchars c (List.mem_of_mem_head? hc))
    · intro c hc
      exact class_not_ws (hchars c (List.mem_of_mem_getLast? hc))
  obtain ⟨hc1, hc2, hc3, hc4, hc5, hc6⟩ := conds_false_of_chars hchars
  have hclose : List.isPrefixOf closeTok (renderQuad v ++ t2) = false := by
    rw [hcons]
    exact isPrefixOf_closeTok_lbrace _
  have hdata : dataLineCond (renderQuad v ++ t2) = true := by
    unfold dataLineCond
    rw [containsSub_singleton (show lbrace ∈ renderQuad v ++ t2 by
        rw [hcons]; exact List.mem_cons_self _ _),
      containsSub_singleton (show rbrace ∈ renderQuad v ++ t2 by
        apply List.mem_append_left
        unfold renderQuad
        simp)]
    rfl
  have hread := readInts_renderQuad v t2 ht2'
  have hh : handleVertexIndices st (renderQuad v ++ t2) =
      .ok { st with vertex_indices := st.vertex_indices ++ [quadToZ v] } := by
    unfold handleVertexIndices
    rw [hflag, hclose, hdata, hread]
    rfl
  have hn1 := handleVertexArray_noop st (renderQuad v ++ t2) hf1
  have hn2 := handleNormalArray_noop st (renderQuad v ++ t2) hf2
  have hn3 := handleUvArray_noop st (renderQuad v ++ t2) hf3
  have hn5 := handleUvIndices_noop
    { st with vertex_indices := st.vertex_indices ++ [quadToZ v] } (renderQuad v ++ t2) hf5
  have hn6 := handleNormalIndices_noop
    { st with vertex_indices := st.vertex_indices ++ [quadToZ v] } (renderQuad v ++ t2) hf6
  simp only [parseStep, hline, hc1, hc2, hc3, hc4, hc5, hc6, Bool.false_eq_true, if_false,
    hh, hn1, hn2, hn3, hn5, hn6, bind, Except.bind]
  rfl

theorem parseStep_uvi_data (st : PState) (v : Quad) (t2 : Line)
    (hflag : st.in_uv_indices = true)
    (hf1 : st.in_vertex_array = false) (hf2 : st.in_normal_array = false) (hf3 : st.in_uv_array = false) (hf4 : st.in_vertex_indices = false) (hf6 : st.in_normal_indices = false)
    (ht2 : t2 = [] ∨ t2 = [',']) :
    parseStep st (indentChars ++ (renderQuad v ++ t2)) =
      .ok { st with uv_indices := st.uv_indices ++ [quadToZ v] } := by
  have ht2' : ∀ c ∈ t2, isStripChar c = true := by
    rcases ht2 with rfl | rfl
    · intro c hc
      simp at hc
    · intro c hc
      simp only [List.mem_singleton] at hc
      subst hc
      decide
  have hchars : ∀ c ∈ renderQuad v ++ t2,
      c.isDigit = true ∨ c = '.' ∨ c = '-' ∨ c = ',' ∨ c = lbrace ∨ c = rbrace := by
    intro c hc
    rcases List.mem_append.mp hc with hc | hc
    · exact renderQuad_chars v c hc
    · rcases ht2 with rfl | rfl
      · simp at hc
      · simp only [List.mem_singleton] at hc
        subst hc
        right; right; right; left; rfl
  have hcons : ∃ r, renderQuad v ++ t2 = lbrace :: r := by
    refine ⟨?_, ?_⟩
    · exact (renderQuad v).tail ++ t2
    · unfold renderQuad
      simp
  obtain ⟨rtail, hcons⟩ := hcons
  have hline : pyStrip (indentChars ++ (renderQuad v ++ t2)) = renderQuad v ++ t2 := by
    apply pyStrip_indent_append
    · intro c hc
      exact class_not_ws (hchars c (List.mem_of_mem_head? hc))
    · intro c hc
      exact class_not_ws (hchars c (List.mem_of_mem_getLast? hc))
  obtain ⟨hc1, hc2, hc3, hc4, hc5, hc6⟩ := conds_false_of_chars hchars
  have hclose : List.isPrefixOf closeTok (renderQuad v ++ t2) = false := by
    rw [hcons]
    exact isPrefixOf_closeTok_lbrace _
  have hdata : dataLineCond (renderQuad v ++ t2) = true := by
    unfold dataLineCond
    rw [containsSub_singleton (show lbrace ∈ renderQuad v ++ t2 by
        rw [hcons]; exact List.mem_cons_self _ _),
      containsSub_singleton (show rbrace ∈ renderQuad v ++ t2 by
        apply List.mem_append_left
        unfold renderQuad
        simp)]
    rfl
  have hread := readInts_renderQuad v t2 ht2'
  have hh : handleUvIndices st (renderQuad v ++ t2) =
      .ok { st with uv_indices := st.uv_indices ++ [quadToZ v] } := by
    unfold handleUvIndices
    rw [hflag, hclose, hdata, hread]
    rfl
  have hn1 := handleVertexArray_noop st (renderQuad v ++ t2) hf1
  have hn2 := handleNormalArray_noop st (renderQuad v ++ t2) hf2
  have hn3 := handleUvArray_noop st (renderQuad v ++ t2) hf3
  have hn4 := handleVertexIndices_noop st (renderQuad v ++ t2) hf4
  have hn6 := handleNormalIndices_noop
    { st with uv_indices := st.uv_indices ++ [quadToZ v] } (renderQuad v ++ t2) hf6
  simp only [parseStep, hline, hc1, hc2, hc3, hc4, hc5, hc6, Bool.false_eq_true, if_false,
    hh, hn1, hn2, hn3, hn4, hn6, bind, Except.bind]
  rfl

theorem handleVertexArray_skip (st : PState) (line : Line)
    (hclose : List.isPrefixOf closeTok line = false) (hdata : dataLineCond line = false) :
    handleVertexArray st line = .ok st := by
  simp [handleVertexArray, hclose, hdata]

theorem handleNormalArray_skip (st : PState) (line : Line)
    (hclose : List.isPrefixOf closeTok line = false) (hdata : dataLineCond line = false) :
    handleNormalArray st line = .ok st := by
  simp [handleNormalArray, hclose, hdata]

theorem handleUvArray_skip (st : PState) (line : Line)
    (hclose : List.isPrefixOf closeTok line = false) (hdata : dataLineCond line = false) :
    handleUvArray st line = .ok st := by
  simp [handleUvArray, hclose, hdata]

theorem handleVertexIndices_skip (st : PState) (line : Line)
    (hclose : List.isPrefixOf closeTok line = false) (hdata : dataLineCond line = false) :
    handleVertexIndices st line = .ok st := by
  simp [handleVertexIndices, hclose, hdata]

theorem handleUvIndices_skip (st : PState) (line : Line)
    (hclose : List.isPrefixOf closeTok line = false) (hdata : dataLineCond line = false) :
    handleUvIndices st line = .ok st := by
  simp [handleUvIndices, hclose, hdata]

theorem handleNormalIndices_skip (st : PState) (line : Line)
    (hclose : List.isPrefixOf closeTok line = false) (hdata : dataLineCond line = false) :
    handleNormalIndices st line = .ok st := by
  simp [handleNormalIndices, hclose, hdata]

/-- A line that matches no section header, is not a close line and has no
    brace-delimited record leaves any parser state unchanged. -/
theorem parseStep_noop (st : PState) (raw : Line)
    (hc1 : hdrVertsCond (pyStrip raw) = false) (hc2 : hdrNormsCond (pyStrip raw) = false)
    (hc3 : hdrUvCond (pyStrip raw) = false) (hc4 : hdrViCond (pyStrip raw) = false)
    (hc5 : hdrUviCond (pyStrip raw) = false) (hc6 : hdrNiCond (pyStrip raw) = false)
    (hclose : List.isPrefixOf closeTok (pyStrip raw) = false)
    (hdata : dataLineCond (pyStrip raw) = false) :
    parseStep st raw = .ok st := by
  have hn1 := handleVertexArray_skip st (pyStrip raw) hclose hdata
  have hn2 := handleNormalArray_skip st (pyStrip raw) hclose hdata
  have hn3 := handleUvArray_skip st (pyStrip raw) hclose hdata
  have hn4 := handleVertexIndices_skip st (pyStrip raw) hclose hdata
  have hn5 := handleUvIndices_skip st (pyStrip raw) hclose hdata
  have hn6 := handleNormalIndices_skip st (pyStrip raw) hclose hdata
  simp only [parseStep, hc1, hc2, hc3, hc4, hc5, hc6, Bool.false_eq_true, if_false,
    hn1, hn2, hn3, hn4, hn5, hn6, bind, Except.bind]
  rfl

/-- A line that strips to the empty string (blank lines, the bare-indent line
    of an empty table) leaves any parser state unchanged. -/
theorem parseStep_ws (st : PState) (raw : Line) (h : pyStrip raw = []) :
    parseStep st raw = .ok st := by
  apply parseStep_noop <;> rw [h] <;> decide

/-- A serialized normal-index line is a bare integer with no braces, so the
    parser's brace-delimited record test fails and the line is ignored in
    every state: the normal-index data never survives the round trip. -/
theorem parseStep_ni_data (st : PState) (n : ℕ) (t2 : Line)
    (ht2 : t2 = [] ∨ t2 = [',']) :
    parseStep st (indentChars ++ (natToDigits n ++ t2)) = .ok st := by
  have hchars : ∀ c ∈ natToDigits n ++ t2,
      c.isDigit = true ∨ c = '.' ∨ c = '-' ∨ c = ',' ∨ c = lbrace ∨ c = rbrace := by
    intro c hc
    rcases List.mem_append.mp hc with hc | hc
    · exact natToDigits_chars_class n c hc
    · rcases ht2 with rfl | rfl
      · simp at hc
      · simp only [List.mem_singleton] at hc
        subst hc
        right; right; right; left; rfl
  have hline : pyStrip (indentChars ++ (natToDigits n ++ t2)) = natToDigits n ++ t2 := by
    apply pyStrip_indent_append
    · intro c hc
      exact class_not_ws (hchars c (List.mem_of_mem_head? hc))
    · intro c hc
      exact class_not_ws (hchars c (List.mem_of_mem_getLast? hc))
  obtain ⟨hc1, hc2, hc3, hc4, hc5, hc6⟩ := conds_false_of_chars hchars
  obtain ⟨hv, hd, hne⟩ := natToDigits_spec n
  have hclose : List.isPrefixOf closeTok (natToDigits n ++ t2) = false := by
    cases hnd : natToDigits n with
    | nil => exact absurd hnd hne
    | cons c r =>
      have hdig : c.isDigit = true := hd c (by rw [hnd]; exact List.mem_cons_self _ _)
      rw [List.cons_append]
      exact isPrefixOf_closeTok_of_head _ (fun he => by subst he; exact absurd hdig (by decide))
  have hdata : dataLineCond (natToDigits n ++ t2) = false := by
    unfold dataLineCond
    rw [not_containsSub (show lbrace ∈ [lbrace] from List.mem_singleton.mpr rfl)
      (fun c hc => by
        rcases hchars c hc with h | h | h | h | h | h
        · exact isDigit_ne h (by decide)
        · subst h; decide
        · subst h; decide
        · subst h; decide
        · rcases List.mem_append.mp hc with hcc | hcc
          · exact absurd ((show c.isDigit = true from hd c (by rw [h] at hcc ⊢; exact hcc)))
              (by rw [h]; decide)
          · rcases ht2 with rfl | rfl
            · simp at hcc
            · simp only [List.mem_singleton] at hcc
              subst hcc
              decide
        · subst h; decide)]
    rfl
  have hpn := parseStep_noop st (indentChars ++ (natToDigits n ++ t2))
  rw [hline] at hpn
  exact hpn hc1 hc2 hc3 hc4 hc5 hc6 hclose hdata

theorem parseStep_close_verts (st : PState)
    (hflag : st.in_vertex_array = true)
    (hf2 : st.in_normal_array = false) (hf3 : st.in_uv_array = false) (hf4 : st.in_vertex_indices = false) (hf5 : st.in_uv_indices = false) (hf6 : st.in_normal_indices = false) :
    parseStep st closeLine = .ok { st with in_vertex_array := false } := by
  have hline : pyStrip closeLine = closeTok := by decide
  have hc1 : hdrVertsCond closeTok = false := by decide
  have hc2 : hdrNormsCond closeTok = false := by decide
  have hc3 : hdrUvCond closeTok = false := by decide
  have hc4 : hdrViCond closeTok = false := by decide
  have hc5 : hdrUviCond closeTok = false := by decide
  have hc6 : hdrNiCond closeTok = false := by decide
  have hh : handleVertexArray st closeTok = .ok { st with in_vertex_array := false } := by
    unfold handleVertexArray
    rw [hflag]
    rfl
  have hn2 := handleNormalArray_noop ({ st with in_vertex_array := false } : PState) closeTok hf2
  have hn3 := handleUvArray_noop ({ st with in_vertex_array := false } : PState) closeTok hf3
  have hn4 := handleVertexIndices_noop ({ st with in_vertex_array := false } : PState) closeTok hf4
  have hn5 := handleUvIndices_noop ({ st with in_vertex_array := false } : PState) closeTok hf5
  have hn6 := handleNormalIndices_noop ({ st with in_vertex_array := false } : PState) closeTok hf6
  simp only [parseStep, hline, hc1, hc2, hc3, hc4, hc5, hc6, Bool.false_eq_true, if_false,
    hh, hn2, hn3, hn4, hn5, hn6, bind, Except.bind]
  rfl

theorem parseStep_close_norms (st : PState)
    (hflag : st.in_normal_array = true)
    (hf1 : st.in_vertex_array = false) (hf3 : st.in_uv_array = false) (hf4 : st.in_vertex_indices = false) (hf5 : st.in_uv_indices = false) (hf6 : st.in_normal_indices = false) :
    parseStep st closeLine = .ok { st with in_normal_array := false } := by
  have hline : pyStrip closeLine = closeTok := by decide
  have hc1 : hdrVertsCond closeTok = false := by decide
  have hc2 : hdrNormsCond closeTok = false := by decide
  have hc3 : hdrUvCond closeTok = false := by decide
  have hc4 : hdrViCond closeTok = false := by decide
  have hc5 : hdrUviCond closeTok = false := by decide
  have hc6 : hdrNiCond closeTok = false := by decide
  have hh : handleNormalArray st closeTok = .ok { st with in_normal_array := false } := by
    unfold handleNormalArray
    rw [hflag]
    rfl
  have hn1 := handleVertexArray_noop st closeTok hf1
  have hn3 := handleUvArray_noop ({ st with in_normal_array := false } : PState) closeTok hf3
  have hn4 := handleVertexIndices_noop ({ st with in_normal_array := false } : PState) closeTok hf4
  have hn5 := handleUvIndices_noop ({ st with in_normal_array := false } : PState) closeTok hf5
  have hn6 := handleNormalIndices_noop ({ st with in_normal_array := false } : PState) closeTok hf6
  simp only [parseStep, hline, hc1, hc2, hc3, hc4, hc5, hc6, Bool.false_eq_true, if_false,
    hh, hn1, hn3, hn4, hn5, hn6, bind, Except.bind]
  rfl

theorem parseStep_close_uv (st : PState)
    (hflag : st.in_uv_array = true)
    (hf1 : st.in_vertex_array = false) (hf2 : st.in_normal_array = false) (hf4 : st.in_vertex_indices = false) (hf5 : st.in_uv_indices = false) (hf6 : st.in_normal_indices = false) :
    parseStep st closeLine = .ok { st with in_uv_array := false } := by
  have hline : pyStrip closeLine = closeTok := by decide
  have hc1 : hdrVertsCond closeTok = false := by decide
  have hc2 : hdrNormsCond closeTok = false := by decide
  have hc3 : hdrUvCond closeTok = false := by decide
  have hc4 : hdrViCond closeTok = false := by decide
  have hc5 : hdrUviCond closeTok = false := by decide
  have hc6 : hdrNiCond closeTok = false := by decide
  have hh : handleUvArray st closeTok = .ok { st with in_uv_array := false } := by
    unfold handleUvArray
    rw [hflag]
    rfl
  have hn1 := handleVertexArray_noop st closeTok hf1
  have hn2 := handleNormalArray_noop st closeTok hf2
  have hn4 := handleVertexIndices_noop ({ st with in_uv_array := false } : PState) closeTok hf4
  have hn5 := handleUvIndices_noop ({ st with in_uv_array := false } : PState) closeTok hf5
  have hn6 := handleNormalIndices_noop ({ st with in_uv_array := false } : PState) closeTok hf6
  simp only [parseStep, hline, hc1, hc2, hc3, hc4, hc5, hc6, Bool.false_eq_true, if_false,
    hh, hn1, hn2, hn4, hn5, hn6, bind, Except.bind]
  rfl

theorem parseStep_close_vi (st : PState)
    (hflag : st.in_vertex_indices = true)
    (hf1 : st.in_vertex_array = false) (hf2 : st.in_normal_array = false) (hf3 : st.in_uv_array = false) (hf5 : st.in_uv_indices = false) (hf6 : st.in_normal_indices = false) :
    parseStep st closeLine = .ok { st with in_vertex_indices := false } := by
  have hline : pyStrip closeLine = closeTok := by decide
  have hc1 : hdrVertsCond closeTok = false := by decide
  have hc2 : hdrNormsCond closeTok = false := by decide
  have hc3 : hdrUvCond closeTok = false := by decide
  have hc4 : hdrViCond closeTok = false := by decide
  have hc5 : hdrUviCond closeTok = false := by decide
  have hc6 : hdrNiCond closeTok = false := by decide
  have hh : handleVertexIndices st closeTok = .ok { st with in_vertex_indices := false } := by
    unfold handleVertexIndices
    rw [hflag]
    rfl
  have hn1 := handleVertexArray_noop st closeTok hf1
  have hn2 := handleNormalArray_noop st closeTok hf2
  have hn3 := handleUvArray_noop st closeTok hf3
  have hn5 := handleUvIndices_noop ({ st with in_vertex_indices := false } : PState) closeTok hf5
  have hn6 := handleNormalIndices_noop ({ st with in_vertex_indices := false } : PState) closeTok hf6
  simp only [parseStep, hline, hc1, hc2, hc3, hc4, hc5, hc6, Bool.false_eq_true, if_false,
    hh, hn1, hn2, hn3, hn5, hn6, bind, Except.bind]
  rfl

theorem parseStep_close_uvi (st : PState)
    (hflag : st.in_uv_indices = true)
    (hf1 : st.in_vertex_array = false) (hf2 : st.in_normal_array = false) (hf3 : st.in_uv_array = false) (hf4 : st.in_vertex_indices = false) (hf6 : st.in_normal_indices = false) :
    parseStep st closeLine = .ok { st with in_uv_indices := false } := by
  have hline : pyStrip closeLine = closeTok := by decide
  have hc1 : hdrVertsCond closeTok = false := by decide
  have hc2 : hdrNormsCond closeTok = false := by decide
  have hc3 : hdrUvCond closeTok = false := by decide
  have hc4 : hdrViCond closeTok = false := by decide
  have hc5 : hdrUviCond closeTok = false := by decide
  have hc6 : hdrNiCond closeTok = false := by decide
  have hh : handleUvIndices st closeTok = .ok { st with in_uv_indices := false } := by
    unfold handleUvIndices
    rw [hflag]
    rfl
  have hn1 := handleVertexArray_noop st closeTok hf1
  have hn2 := handleNormalArray_noop st closeTok hf2
  have hn3 := handleUvArray_noop st closeTok hf3
  have hn4 := handleVertexIndices_noop st closeTok hf4
  have hn6 := handleNormalIndices_noop ({ st with in_uv_indices := false } : PState) closeTok hf6
  simp only [parseStep, hline, hc1, hc2, hc3, hc4, hc5, hc6, Bool.false_eq_true, if_false,
    hh, hn1, hn2, hn3, hn4, hn6, bind, Except.bind]
  rfl

theorem parseStep_close_ni (st : PState)
    (hflag : st.in_normal_indices = true)
    (hf1 : st.in_vertex_array = false) (hf2 : st.in_normal_array = false) (hf3 : st.in_uv_array = false) (hf4 : st.in_vertex_indices = false) (hf5 : st.in_uv_indices = false) :
    parseStep st closeLine = .ok { st with in_normal_indices := false } := by
  have hline : pyStrip closeLine = closeTok := by decide
  have hc1 : hdrVertsCond closeTok = false := by decide
  have hc2 : hdrNormsCond closeTok = false := by decide
  have hc3 : hdrUvCond closeTok = false := by decide
  have hc4 : hdrViCond closeTok = false := by decide
  have hc5 : hdrUviCond closeTok = false := by decide
  have hc6 : hdrNiCond closeTok = false := by decide
  have hh : handleNormalIndices st closeTok = .ok { st with in_normal_indices := false } := by
    unfold handleNormalIndices
    rw [hflag]
    rfl
  have hn1 := handleVertexArray_noop st closeTok hf1
  have hn2 := handleNormalArray_noop st closeTok hf2
  have hn3 := handleUvArray_noop st closeTok hf3
  have hn4 := handleVertexIndices_noop st closeTok hf4
  have hn5 := handleUvIndices_noop st closeTok hf5
  simp only [parseStep, hline, hc1, hc2, hc3, hc4, hc5, hc6, Bool.false_eq_true, if_false,
    hh, hn1, hn2, hn3, hn4, hn5, bind, Except.bind]
  rfl

theorem getLast_append_lbrace (a b : Line) (h : b.getLast? = some lbrace) :
    (a ++ b).getLast? = some lbrace := by
  rw [List.getLast?_append_of_ne_nil _ (fun hb => by rw [hb] at h; simp at h)]
  exact h

theorem parseStep_hdr_verts (st : PState) (name : Line) :
    parseStep st (hdrVertsLine name) = .ok { st with in_vertex_array := true } := by
  have hhd : (hdrVertsLine name).head? = some 'S' := by
    unfold hdrVertsLine
    rfl
  have hgl : (hdrVertsLine name).getLast? = some lbrace := by
    unfold hdrVertsLine
    exact getLast_append_lbrace _ _ (by decide)
  have hline : pyStrip (hdrVertsLine name) = hdrVertsLine name := by
    apply pyStrip_eq_self
    · intro c hc
      rw [hhd] at hc
      injection hc with h
      rw [← h]
      decide
    · intro c hc
      rw [hgl] at hc
      injection hc with h
      rw [← h]
      decide
  have hA : containsSub svectorTok (hdrVertsLine name) = true := by
    have he : hdrVertsLine name =
        [] ++ (svectorTok ++ ([' '] ++ (name ++ ("_verts[] = \x7b").toList))) := by
      unfold hdrVertsLine
      simp only [List.nil_append, List.append_assoc]
    rw [he]
    exact containsSub_infix _ _ _
  have hB : containsSub vertsTok (hdrVertsLine name) = true := by
    have hs : ("_verts[] = \x7b").toList = vertsTok ++ ("[] = \x7b").toList := by decide
    have he : hdrVertsLine name = (svectorTok ++ ([' '] ++ name)) ++ (vertsTok ++ ("[] = \x7b").toList) := by
      unfold hdrVertsLine
      rw [hs]
      simp only [List.append_assoc]
    rw [he]
    exact containsSub_infix _ _ _
  have hck : hdrVertsCond (hdrVertsLine name) = true := by
    unfold hdrVertsCond
    rw [hA, hB]
    rfl
  simp only [parseStep, hline, Bool.false_eq_true, if_false, hck, bind, Except.bind]
  rfl

theorem parseStep_hdr_norms (st : PState) (name : Line)
    (hverts : containsSub vertsTok (hdrNormsLine name) = false) (hf1 : st.in_vertex_array = false) :
    parseStep st (hdrNormsLine name) = .ok { st with in_normal_array := true } := by
  have hhd : (hdrNormsLine name).head? = some 'S' := by
    unfold hdrNormsLine
    rfl
  have hgl : (hdrNormsLine name).getLast? = some lbrace := by
    unfold hdrNormsLine
    exact getLast_append_lbrace _ _ (by decide)
  have hline : pyStrip (hdrNormsLine name) = hdrNormsLine name := by
    apply pyStrip_eq_self
    · intro c hc
      rw [hhd] at hc
      injection hc with h
      rw [← h]
      decide
    · intro c hc
      rw [hgl] at hc
      injection hc with h
      rw [← h]
      decide
  have hc1 : hdrVertsCond (hdrNormsLine name) = false := by
    unfold hdrVertsCond
    rw [hverts, Bool.and_false]
  have hn1 := handleVertexArray_noop st (hdrNormsLine name) hf1
  have hA : containsSub svectorTok (hdrNormsLine name) = true := by
    have he : hdrNormsLine name =
        [] ++ (svectorTok ++ ([' '] ++ (name ++ ("_norms[] = \x7b").toList))) := by
      unfold hdrNormsLine
      simp only [List.nil_append, List.append_assoc]
    rw [he]
    exact containsSub_infix _ _ _
  have hB : containsSub normsTok (hdrNormsLine name) = true := by
    have hs : ("_norms[] = \x7b").toList = normsTok ++ ("[] = \x7b").toList := by decide
    have he : hdrNormsLine name = (svectorTok ++ ([' '] ++ name)) ++ (normsTok ++ ("[] = \x7b").toList) := by
      unfold hdrNormsLine
      rw [hs]
      simp only [List.append_assoc]
    rw [he]
    exact containsSub_infix _ _ _
  have hck : hdrNormsCond (hdrNormsLine name) = true := by
    unfold hdrNormsCond
    rw [hA, hB]
    rfl
  simp only [parseStep, hline, Bool.false_eq_true, if_false, hc1, hn1, hck, bind, Except.bind]
  rfl

theorem parseStep_hdr_uv (st : PState) (name : Line)
    (hverts : containsSub vertsTok (hdrUvLine name) = false) (hnorms : containsSub normsTok (hdrUvLine name) = false) (hf1 : st.in_vertex_array = false) (hf2 : st.in_normal_array = false) :
    parseStep st (hdrUvLine name) = .ok { st with in_uv_array := true } := by
  have hhd : (hdrUvLine name).head? = some 'S' := by
    unfold hdrUvLine
    rfl
  have hgl : (hdrUvLine name).getLast? = some lbrace := by
    unfold hdrUvLine
    exact getLast_append_lbrace _ _ (by decide)
  have hline : pyStrip (hdrUvLine name) = hdrUvLine name := by
    apply pyStrip_eq_self
    · intro c hc
      rw [hhd] at hc
      injection hc with h
      rw [← h]
      decide
    · intro c hc
      rw [hgl] at hc
      injection hc with h
      rw [← h]
      decide
  have hc1 : hdrVertsCond (hdrUvLine name) = false := by
    unfold hdrVertsCond
    rw [hverts, Bool.and_false]
  have hc2 : hdrNormsCond (hdrUvLine name) = false := by
    unfold hdrNormsCond
    rw [hnorms, Bool.and_false]
  have hn1 := handleVertexArray_noop st (hdrUvLine name) hf1
  have hn2 := handleNormalArray_noop st (hdrUvLine name) hf2
  have hA : containsSub svectorTok (hdrUvLine name) = true := by
    have he : hdrUvLine name =
        [] ++ (svectorTok ++ ([' '] ++ (name ++ ("_uv[] = \x7b").toList))) := by
      unfold hdrUvLine
      simp only [List.nil_append, List.append_assoc]
    rw [he]
    exact containsSub_infix _ _ _
  have hB : containsSub uvTok (hdrUvLine name) = true := by
    have hs : ("_uv[] = \x7b").toList = uvTok ++ ("[] = \x7b").toList := by decide
    have he : hdrUvLine name = (svectorTok ++ ([' '] ++ name)) ++ (uvTok ++ ("[] = \x7b").toList) := by
      unfold hdrUvLine
      rw [hs]
      simp only [List.append_assoc]
    rw [he]
    exact containsSub_infix _ _ _
  have hck : hdrUvCond (hdrUvLine name) = true := by
    unfold hdrUvCond
    rw [hA, hB]
    rfl
  simp only [parseStep, hline, Bool.false_eq_true, if_false, hc1, hc2, hn1, hn2, hck, bind, Except.bind]
  rfl

theorem parseStep_hdr_vi (st : PState) (name : Line)
    (hsvec : containsSub svectorTok (hdrViLine name) = false) (hf1 : st.in_vertex_array = false) (hf2 : st.in_normal_array = false) (hf3 : st.in_uv_array = false) :
    parseStep st (hdrViLine name) = .ok { st with in_vertex_indices := true } := by
  have hhd : (hdrViLine name).head? = some 'I' := by
    unfold hdrViLine
    rfl
  have hgl : (hdrViLine name).getLast? = some lbrace := by
    unfold hdrViLine
    exact getLast_append_lbrace _ _ (by decide)
  have hline : pyStrip (hdrViLine name) = hdrViLine name := by
    apply pyStrip_eq_self
    · intro c hc
      rw [hhd] at hc
      injection hc with h
      rw [← h]
      decide
    · intro c hc
      rw [hgl] at hc
      injection hc with h
      rw [← h]
      decide
  have hc1 : hdrVertsCond (hdrViLine name) = false := by
    unfold hdrVertsCond
    rw [hsvec, Bool.false_and]
  have hc2 : hdrNormsCond (hdrViLine name) = false := by
    unfold hdrNormsCond
    rw [hsvec, Bool.false_and]
  have hc3 : hdrUvCond (hdrViLine name) = false := by
    unfold hdrUvCond
    rw [hsvec, Bool.false_and]
  have hn1 := handleVertexArray_noop st (hdrViLine name) hf1
  have hn2 := handleNormalArray_noop st (hdrViLine name) hf2
  have hn3 := handleUvArray_noop st (hdrViLine name) hf3
  have hA : containsSub indexTok (hdrViLine name) = true := by
    have he : hdrViLine name =
        [] ++ (indexTok ++ ([' '] ++ (name ++ ("_vertex_indices[] = \x7b").toList))) := by
      unfold hdrViLine
      simp only [List.nil_append, List.append_assoc]
    rw [he]
    exact containsSub_infix _ _ _
  have hB : containsSub vertexIndicesTok (hdrViLine name) = true := by
    have hs : ("_vertex_indices[] = \x7b").toList = vertexIndicesTok ++ ("[] = \x7b").toList := by decide
    have he : hdrViLine name = (indexTok ++ ([' '] ++ name)) ++ (vertexIndicesTok ++ ("[] = \x7b").toList) := by
      unfold hdrViLine
      rw [hs]
      simp only [List.append_assoc]
    rw [he]
    exact containsSub_infix _ _ _
  have hck : hdrViCond (hdrViLine name) = true := by
    unfold hdrViCond
    rw [hA, hB]
    rfl
  simp only [parseStep, hline, Bool.false_eq_true, if_false, hc1, hc2, hc3, hn1, hn2, hn3, hck, bind, Except.bind]
  rfl

theorem parseStep_hdr_uvi (st : PState) (name : Line)
    (hsvec : containsSub svectorTok (hdrUviLine name) = false) (hvi : containsSub vertexIndicesTok (hdrUviLine name) = false) (hf1 : st.in_vertex_array = false) (hf2 : st.in_normal_array = false) (hf3 : st.in_uv_array = false) (hf4 : st.in_vertex_indices = false) :
    parseStep st (hdrUviLine name) = .ok { st with in_uv_indices := true } := by
  have hhd : (hdrUviLine name).head? = some 'I' := by
    unfold hdrUviLine
    rfl
  have hgl : (hdrUviLine name).getLast? = some lbrace := by
    unfold hdrUviLine
    exact getLast_append_lbrace _ _ (by decide)
  have hline : pyStrip (hdrUviLine name) = hdrUviLine name := by
    apply pyStrip_eq_self
    · intro c hc
      rw [hhd] at hc
      injection hc with h
      rw [← h]
      decide
    · intro c hc
      rw [hgl] at hc
      injection hc with h
      rw [← h]
      decide
  have hc1 : hdrVertsCond (hdrUviLine name) = false := by
    unfold hdrVertsCond
    rw [hsvec, Bool.false_and]
  have hc2 : hdrNormsCond (hdrUviLine name) = false := by
    unfold hdrNormsCond
    rw [hsvec, Bool.false_and]
  have hc3 : hdrUvCond (hdrUviLine name) = false := by
    unfold hdrUvCond
    rw [hsvec, Bool.false_and]
  have hc4 : hdrViCond (hdrUviLine name) = false := by
    unfold hdrViCond
    rw [hvi, Bool.and_false]
  have hn1 := handleVertexArray_noop st (hdrUviLine name) hf1
  have hn2 := handleNormalArray_noop st (hdrUviLine name) hf2
  have hn3 := handleUvArray_noop st (hdrUviLine name) hf3
  have hn4 := handleVertexIndices_noop st (hdrUviLine name) hf4
  have hA : containsSub indexTok (hdrUviLine name) = true := by
    have he : hdrUviLine name =
        [] ++ (indexTok ++ ([' '] ++ (name ++ ("_uv_indices[] = \x7b").toList))) := by
      unfold hdrUviLine
      simp only [List.nil_append, List.append_assoc]
    rw [he]
    exact containsSub_infix _ _ _
  have hB : containsSub uvIndicesTok (hdrUviLine name) = true := by
    have hs : ("_uv_indices[] = \x7b").toList = uvIndicesTok ++ ("[] = \x7b").toList := by decide
    have he : hdrUviLine name = (indexTok ++ ([' '] ++ name)) ++ (uvIndicesTok ++ ("[] = \x7b").toList) := by
      unfold hdrUviLine
      rw [hs]
      simp only [List.append_assoc]
    rw [he]
    exact containsSub_infix _ _ _
  have hck : hdrUviCond (hdrUviLine name) = true := by
    unfold hdrUviCond
    rw [hA, hB]
    rfl
  simp only [parseStep, hline, Bool.false_eq_true, if_false, hc1, hc2, hc3, hc4, hn1, hn2, hn3, hn4, hck, bind, Except.bind]
  rfl

theorem parseStep_hdr_ni (st : PState) (name : Line)
    (hsvec : containsSub svectorTok (hdrNiLine name) = false) (hidx : containsSub indexTok (hdrNiLine name) = false) (hf1 : st.in_vertex_array = false) (hf2 : st.in_normal_array = false) (hf3 : st.in_uv_array = false) (hf4 : st.in_vertex_indices = false) (hf5 : st.in_uv_indices = false) :
    parseStep st (hdrNiLine name) = .ok { st with in_normal_indices := true } := by
  have hhd : (hdrNiLine name).head? = some 'i' := by
    unfold hdrNiLine
    rfl
  have hgl : (hdrNiLine name).getLast? = some lbrace := by
    unfold hdrNiLine
    exact getLast_append_lbrace _ _ (by decide)
  have hline : pyStrip (hdrNiLine name) = hdrNiLine name := by
    apply pyStrip_eq_self
    · intro c hc
      rw [hhd] at hc
      injection hc with h
      rw [← h]
      decide
    · intro c hc
      rw [hgl] at hc
      injection hc with h
      rw [← h]
      decide
  have hc1 : hdrVertsCond (hdrNiLine name) = false := by
    unfold hdrVertsCond
    rw [hsvec, Bool.false_and]
  have hc2 : hdrNormsCond (hdrNiLine name) = false := by
    unfold hdrNormsCond
    rw [hsvec, Bool.false_and]
  have hc3 : hdrUvCond (hdrNiLine name) = false := by
    unfold hdrUvCond
    rw [hsvec, Bool.false_and]
  have hc4 : hdrViCond (hdrNiLine name) = false := by
    unfold hdrViCond
    rw [hidx, Bool.false_and]
  have hc5 : hdrUviCond (hdrNiLine name) = false := by
    unfold hdrUviCond
    rw [hidx, Bool.false_and]
  have hn1 := handleVertexArray_noop st (hdrNiLine name) hf1
  have hn2 := handleNormalArray_noop st (hdrNiLine name) hf2
  have hn3 := handleUvArray_noop st (hdrNiLine name) hf3
  have hn4 := handleVertexIndices_noop st (hdrNiLine name) hf4
  have hn5 := handleUvIndices_noop st (hdrNiLine name) hf5
  have hA : containsSub intTok (hdrNiLine name) = true := by
    have he : hdrNiLine name =
        [] ++ (intTok ++ ([' '] ++ (name ++ ("_normal_indices[] = \x7b").toList))) := by
      unfold hdrNiLine
      simp only [List.nil_append, List.append_assoc]
    rw [he]
    exact containsSub_infix _ _ _
  have hB : containsSub normalIndicesTok (hdrNiLine name) = true := by
    have hs : ("_normal_indices[] = \x7b").toList = normalIndicesTok ++ ("[] = \x7b").toList := by decide
    have he : hdrNiLine name = (intTok ++ ([' '] ++ name)) ++ (normalIndicesTok ++ ("[] = \x7b").toList) := by
      unfold hdrNiLine
      rw [hs]
      simp only [List.append_assoc]
    rw [he]
    exact containsSub_infix _ _ _
  have hck : hdrNiCond (hdrNiLine name) = true := by
    unfold hdrNiCond
    rw [hA, hB]
    rfl
  simp only [parseStep, hline, Bool.false_eq_true, if_false, hc1, hc2, hc3, hc4, hc5, hn1, hn2, hn3, hn4, hn5, hck, bind, Except.bind]
  rfl

theorem foldl_step (st st' : PState) (l : Line) (rest : List Line)
    (h : parseStep st l = .ok st') :
    List.foldlM parseStep st (l :: rest) = List.foldlM parseStep st' rest := by
  rw [List.foldlM_cons, h]
  rfl

/-- A line matching no section header leaves a state with no active section
    unchanged (regardless of any braces it contains). -/
theorem parseStep_noflags (st : PState) (raw : Line)
    (hc1 : hdrVertsCond (pyStrip raw) = false) (hc2 : hdrNormsCond (pyStrip raw) = false)
    (hc3 : hdrUvCond (pyStrip raw) = false) (hc4 : hdrViCond (pyStrip raw) = false)
    (hc5 : hdrUviCond (pyStrip raw) = false) (hc6 : hdrNiCond (pyStrip raw) = false)
    (hf1 : st.in_vertex_array = false) (hf2 : st.in_normal_array = false)
    (hf3 : st.in_uv_array = false) (hf4 : st.in_vertex_indices = false)
    (hf5 : st.in_uv_indices = false) (hf6 : st.in_normal_indices = false) :
    parseStep st raw = .ok st := by
  have hn1 := handleVertexArray_noop st (pyStrip raw) hf1
  have hn2 := handleNormalArray_noop st (pyStrip raw) hf2
  have hn3 := handleUvArray_noop st (pyStrip raw) hf3
  have hn4 := handleVertexIndices_noop st (pyStrip raw) hf4
  have hn5 := handleUvIndices_noop st (pyStrip raw) hf5
  have hn6 := handleNormalIndices_noop st (pyStrip raw) hf6
  simp only [parseStep, hc1, hc2, hc3, hc4, hc5, hc6, Bool.false_eq_true, if_false,
    hn1, hn2, hn3, hn4, hn5, hn6, bind, Except.bind]
  rfl

theorem foldl_verts_entries (vs : List V3Z) : ∀ (st : PState) (rest : List Line),
    st.in_vertex_array = true →
    st.in_normal_array = false → st.in_uv_array = false →
    st.in_vertex_indices = false → st.in_uv_indices = false → st.in_normal_indices = false →
    List.foldlM parseStep st (joinEntries (vs.map renderVec3) ++ rest) =
      List.foldlM parseStep { st with vertices := st.vertices ++ vs.map toQ3 } rest := by
  induction vs with
  | nil =>
    intro st rest hflag hf2 hf3 hf4 hf5 hf6
    rw [List.map_nil,
      show joinEntries ([] : List Line) = [indentChars] from rfl, List.singleton_append,
      foldl_step st st indentChars rest (parseStep_ws st indentChars (by decide))]
    simp only [List.map_nil, List.append_nil]
  | cons v vs ih =>
    intro st rest hflag hf2 hf3 hf4 hf5 hf6
    cases vs with
    | nil =>
      have h1 := parseStep_vertex_data st v [] hflag hf2 hf3 hf4 hf5 hf6 (Or.inl rfl)
      rw [List.append_nil] at h1
      rw [List.map_cons, List.map_nil,
        show joinEntries [renderVec3 v] = [indentChars ++ renderVec3 v] from rfl,
        List.singleton_append, foldl_step _ _ _ _ h1]
      simp only [List.map_cons, List.map_nil]
    | cons w ws =>
      have h1 := parseStep_vertex_data st v [','] hflag hf2 hf3 hf4 hf5 hf6 (Or.inr rfl)
      have ih' := ih { st with vertices := st.vertices ++ [toQ3 v] } rest hflag hf2 hf3 hf4 hf5 hf6
      rw [List.map_cons,
        show joinEntries (renderVec3 v :: List.map renderVec3 (w :: ws)) =
          (indentChars ++ renderVec3 v ++ [',']) :: joinEntries (List.map renderVec3 (w :: ws)) from rfl,
        List.append_assoc indentChars (renderVec3 v) [','], List.cons_append,
        foldl_step _ _ _ _ h1, ih']
      simp only [List.map_cons, List.append_assoc, List.singleton_append]

theorem foldl_norms_entries (vs : List V3Z) : ∀ (st : PState) (rest : List Line),
    st.in_normal_array = true →
    st.in_vertex_array = false → st.in_uv_array = false →
    st.in_vertex_indices = false → st.in_uv_indices = false → st.in_normal_indices = false →
    List.foldlM parseStep st (joinEntries (vs.map renderVec3) ++ rest) =
      List.foldlM parseStep { st with normals := st.normals ++ vs.map toQ3 } rest := by
  induction vs with
  | nil =>
    intro st rest hflag hf1 hf3 hf4 hf5 hf6
    rw [List.map_nil,
      show joinEntries ([] : List Line) = [indentChars] from rfl, List.singleton_append,
      foldl_step st st indentChars rest (parseStep_ws st indentChars (by decide))]
    simp only [List.map_nil, List.append_nil]
  | cons v vs ih =>
    intro st rest hflag hf1 hf3 hf4 hf5 hf6
    cases vs with
    | nil =>
      have h1 := parseStep_normal_data st v [] hflag hf1 hf3 hf4 hf5 hf6 (Or.inl rfl)
      rw [List.append_nil] at h1
      rw [List.map_cons, List.map_nil,
        show joinEntries [renderVec3 v] = [indentChars ++ renderVec3 v] from rfl,
        List.singleton_append, foldl_step _ _ _ _ h1]
      simp only [List.map_cons, List.map_nil]
    | cons w ws =>
      have h1 := parseStep_normal_data st v [','] hflag hf1 hf3 hf4 hf5 hf6 (Or.inr rfl)
      have ih' := ih { st with normals := st.normals ++ [toQ3 v] } rest hflag hf1 hf3 hf4 hf5 hf6
      rw [List.map_cons,
        show joinEntries (renderVec3 v :: List.map renderVec3 (w :: ws)) =
          (indentChars ++ renderVec3 v ++ [',']) :: joinEntries (List.map renderVec3 (w :: ws)) from rfl,
        List.append_assoc indentChars (renderVec3 v) [','], List.cons_append,
        foldl_step _ _ _ _ h1, ih']
      simp only [List.map_cons, List.append_assoc, List.singleton_append]

theorem foldl_uv_entries (vs : List V2Z) : ∀ (st : PState) (rest : List Line),
    st.in_uv_array = true →
    st.in_vertex_array = false → st.in_normal_array = false →
    st.in_vertex_indices = false → st.in_uv_indices = false → st.in_normal_indices = false →
    List.foldlM parseStep st (joinEntries (vs.map renderVec2) ++ rest) =
      List.foldlM parseStep { st with uvs := st.uvs ++ vs.map toQ2 } rest := by
  induction vs with
  | nil =>
    intro st rest hflag hf1 hf2 hf4 hf5 hf6
    rw [List.map_nil,
      show joinEntries ([] : List Line) = [indentChars] from rfl, List.singleton_append,
      foldl_step st st indentChars rest (parseStep_ws st indentChars (by decide))]
    simp only [List.map_nil, List.append_nil]
  | cons v vs ih =>
    intro st rest hflag hf1 hf2 hf4 hf5 hf6
    cases vs with
    | nil =>
      have h1 := parseStep_uv_data st v [] hflag hf1 hf2 hf4 hf5 hf6 (Or.inl rfl)
      rw [List.append_nil] at h1
      rw [List.map_cons, List.map_nil,
        show joinEntries [renderVec2 v] = [indentChars ++ renderVec2 v] from rfl,
        List.singleton_append, foldl_step _ _ _ _ h1]
      simp only [List.map_cons, List.map_nil]
    | cons w ws =>
      have h1 := parseStep_uv_data st v [','] hflag hf1 hf2 hf4 hf5 hf6 (Or.inr rfl)
      have ih' := ih { st with uvs := st.uvs ++ [toQ2 v] } rest hflag hf1 hf2 hf4 hf5 hf6
      rw [List.map_cons,
        show joinEntries (renderVec2 v :: List.map renderVec2 (w :: ws)) =
          (indentChars ++ renderVec2 v ++ [',']) :: joinEntries (List.map renderVec2 (w :: ws)) from rfl,
        List.append_assoc indentChars (renderVec2 v) [','], List.cons_append,
        foldl_step _ _ _ _ h1, ih']
      simp only [List.map_cons, List.append_assoc, List.singleton_append]

theorem foldl_vi_entries (vs : List Quad) : ∀ (st : PState) (rest : List Line),
    st.in_vertex_indices = true →
    st.in_vertex_array = false → st.in_normal_array = false →
    st.in_uv_array = false → st.in_uv_indices = false → st.in_normal_indices = false →
    List.foldlM parseStep st (joinEntries (vs.map renderQuad) ++ rest) =
      List.foldlM parseStep { st with vertex_indices := st.vertex_indices ++ vs.map quadToZ } rest := by
  induction vs with
  | nil =>
    intro st rest hflag hf1 hf2 hf3 hf5 hf6
    rw [List.map_nil,
      show joinEntries ([] : List Line) = [indentChars] from rfl, List.singleton_append,
      foldl_step st st indentChars rest (parseStep_ws st indentChars (by decide))]
    simp only [List.map_nil, List.append_nil]
  | cons v vs ih =>
    intro st rest hflag hf1 hf2 hf3 hf5 hf6
    cases vs with
    | nil =>
      have h1 := parseStep_vi_data st v [] hflag hf1 hf2 hf3 hf5 hf6 (Or.inl rfl)
      rw [List.append_nil] at h1
      rw [List.map_cons, List.map_nil,
        show joinEntries [renderQuad v] = [indentChars ++ renderQuad v] from rfl,
        List.singleton_append, foldl_step _ _ _ _ h1]
      simp only [List.map_cons, List.map_nil]
    | cons w ws =>
      have h1 := parseStep_vi_data st v [','] hflag hf1 hf2 hf3 hf5 hf6 (Or.inr rfl)
      have ih' := ih { st with vertex_indices := st.vertex_indices ++ [quadToZ v] } rest hflag hf1 hf2 hf3 hf5 hf6
      rw [List.map_cons,
        show joinEntries (renderQuad v :: List.map renderQuad (w :: ws)) =
          (indentChars ++ renderQuad v ++ [',']) :: joinEntries (List.map renderQuad (w :: ws)) from rfl,
        List.append_assoc indentChars (renderQuad v) [','], List.cons_append,
        foldl_step _ _ _ _ h1, ih']
      simp only [List.map_cons, List.append_assoc, List.singleton_append]

theorem foldl_uvi_entries (vs : List Quad) : ∀ (st : PState) (rest : List Line),
    st.in_uv_indices = true →
    st.in_vertex_array = false → st.in_normal_array = false →
    st.in_uv_array = false → st.in_vertex_indices = false → st.in_normal_indices = false →
    List.foldlM parseStep st (joinEntries (vs.map renderQuad) ++ rest) =
      List.foldlM parseStep { st with uv_indices := st.uv_indices ++ vs.map quadToZ } rest := by
  induction vs with
  | nil =>
    intro st rest hflag hf1 hf2 hf3 hf4 hf6
    rw [List.map_nil,
      show joinEntries ([] : List Line) = [indentChars] from rfl, List.singleton_append,
      foldl_step st st indentChars rest (parseStep_ws st indentChars (by decide))]
    simp only [List.map_nil, List.append_nil]
  | cons v vs ih =>
    intro st rest hflag hf1 hf2 hf3 hf4 hf6
    cases vs with
    | nil =>
      have h1 := parseStep_uvi_data st v [] hflag hf1 hf2 hf3 hf4 hf6 (Or.inl rfl)
      rw [List.append_nil] at h1
      rw [List.map_cons, List.map_nil,
        show joinEntries [renderQuad v] = [indentChars ++ renderQuad v] from rfl,
        List.singleton_append, foldl_step _ _ _ _ h1]
      simp only [List.map_cons, List.map_nil]
    | cons w ws =>
      have h1 := parseStep_uvi_data st v [','] hflag hf1 hf2 hf3 hf4 hf6 (Or.inr rfl)
      have ih' := ih { st with uv_indices := st.uv_indices ++ [quadToZ v] } rest hflag hf1 hf2 hf3 hf4 hf6
      rw [List.map_cons,
        show joinEntries (renderQuad v :: List.map renderQuad (w :: ws)) =
          (indentChars ++ renderQuad v ++ [',']) :: joinEntries (List.map renderQuad (w :: ws)) from rfl,
        List.append_assoc indentChars (renderQuad v) [','], List.cons_append,
        foldl_step _ _ _ _ h1, ih']
      simp only [List.map_cons, List.append_assoc, List.singleton_append]

/-- The serialized normal-index entries are bare integers, so the whole body
    of that array is ignored by the parser in any state. -/
theorem foldl_ni_entries (ns : List ℕ) : ∀ (st : PState) (rest : List Line),
    List.foldlM parseStep st (joinEntries (ns.map natToDigits) ++ rest) =
      List.foldlM parseStep st rest := by
  induction ns with
  | nil =>
    intro st rest
    rw [List.map_nil,
      show joinEntries ([] : List Line) = [indentChars] from rfl, List.singleton_append,
      foldl_step st st indentChars rest (parseStep_ws st indentChars (by decide))]
  | cons n ns ih =>
    intro st rest
    cases ns with
    | nil =>
      have h1 := parseStep_ni_data st n [] (Or.inl rfl)
      rw [List.append_nil] at h1
      rw [List.map_cons, List.map_nil,
        show joinEntries [natToDigits n] = [indentChars ++ natToDigits n] from rfl,
        List.singleton_append, foldl_step _ _ _ _ h1]
    | cons k ks =>
      have h1 := parseStep_ni_data st n [','] (Or.inr rfl)
      rw [List.map_cons,
        show joinEntries (natToDigits n :: List.map natToDigits (k :: ks)) =
          (indentChars ++ natToDigits n ++ [',']) :: joinEntries (List.map natToDigits (k :: ks))
          from rfl,
        List.append_assoc indentChars (natToDigits n) [','], List.cons_append,
        foldl_step _ _ _ _ h1, ih st rest]


/-- C1 (corrected): serializing a `Model` and parsing the result reproduces the
    vertex, normal and UV tables (as rounded tuples, via `toQ3`/`toQ2`) and the
    vertex-index and UV-index lists in order, for any model whose identifier
    does not collide with the parser's substring section markers
    (`exportNameOk`) — but the normal-index list always parses back empty,
    because the serializer emits normal indices as bare integers while the
    parser only accepts brace-delimited records. -/
theorem serialize_parse_roundtrip (m : Model) (h : exportNameOk m) :
    load_obj_c_model (serializeLines m) = .ok (expectedParse m) := by
  obtain ⟨e1, e2, e3, e4, e5, e6, e7, e8, e9, e10, e11, e12, e13, e14⟩ := h
  have hfchd : (faceCountLine m.name m.vertex_indices.length).head? = some 'i' := by
    unfold faceCountLine
    rfl
  have hfcgl : (faceCountLine m.name m.vertex_indices.length).getLast? = some 't' := by
    unfold faceCountLine
    rw [List.getLast?_append_of_ne_nil _ (by decide)]
    decide
  have hfcline : pyStrip (faceCountLine m.name m.vertex_indices.length) =
      faceCountLine m.name m.vertex_indices.length := by
    apply pyStrip_eq_self
    · intro c hc
      rw [hfchd] at hc
      injection hc with hx
      rw [← hx]
      decide
    · intro c hc
      rw [hfcgl] at hc
      injection hc with hx
      rw [← hx]
      decide
  have hI1 := parseStep_noflags (⟨false, false, false, false, false, false,
      [], [], [],
      [], [], [], []⟩ : PState) includeLine1 (by decide) (by decide) (by decide)
    (by decide) (by decide) (by decide) rfl rfl rfl rfl rfl rfl
  have hI2 := parseStep_noflags (⟨false, false, false, false, false, false,
      [], [], [],
      [], [], [], []⟩ : PState) includeLine2 (by decide) (by decide) (by decide)
    (by decide) (by decide) (by decide) rfl rfl rfl rfl rfl rfl
  have hFC := parseStep_noflags (⟨false, false, false, false, false, false,
      [], [], [],
      [], [], [], []⟩ : PState) (faceCountLine m.name m.vertex_indices.length)
    (by rw [hfcline]; exact e9) (by rw [hfcline]; exact e10) (by rw [hfcline]; exact e11)
    (by rw [hfcline]; exact e12) (by rw [hfcline]; exact e13) (by rw [hfcline]; exact e14)
    rfl rfl rfl rfl rfl rfl
  unfold load_obj_c_model serializeLines
  simp only [arrayBlock, List.cons_append, List.nil_append, List.append_assoc]
  rw [foldl_step _ _ _ _ hI1, foldl_step _ _ _ _ hI2,
    foldl_step _ _ _ _ (parseStep_ws (⟨false, false, false, false, false, false,
      [], [], [],
      [], [], [], []⟩ : PState) [] rfl),
    foldl_step _ _ _ _ hFC,
    foldl_step _ _ _ _ (parseStep_ws (⟨false, false, false, false, false, false,
      [], [], [],
      [], [], [], []⟩ : PState) [] rfl),
    foldl_step _ _ _ _ (parseStep_hdr_verts (⟨false, false, false, false, false, false,
      [], [], [],
      [], [], [], []⟩ : PState) m.name)]
  rw [foldl_verts_entries m.verts (⟨true, false, false, false, false, false,
      [], [], [],
      [], [], [], []⟩ : PState) _ rfl rfl rfl rfl rfl rfl]
  rw [foldl_step _ _ _ _ (parseStep_close_verts (⟨true, false, false, false, false, false,
      [] ++ List.map toQ3 m.verts, [], [],
      [], [], [], []⟩ : PState) rfl rfl rfl rfl rfl rfl)]
  rw [foldl_step _ _ _ _ (parseStep_ws (⟨false, false, false, false, false, false,
      [] ++ List.map toQ3 m.verts, [], [],
      [], [], [], []⟩ : PState) [] rfl)]
  rw [foldl_step _ _ _ _ (parseStep_hdr_norms (⟨false, false, false, false, false, false,
      [] ++ List.map toQ3 m.verts, [], [],
      [], [], [], []⟩ : PState) m.name e1 rfl)]
  rw [foldl_norms_entries m.norms (⟨false, true, false, false, false, false,
      [] ++ List.map toQ3 m.verts, [], [],
      [], [], [], []⟩ : PState) _ rfl rfl rfl rfl rfl rfl]
  rw [foldl_step _ _ _ _ (parseStep_close_norms (⟨false, true, false, false, false, false,
      [] ++ List.map toQ3 m.verts, [] ++ List.map toQ3 m.norms, [],
      [], [], [], []⟩ : PState) rfl rfl rfl rfl rfl rfl)]
  rw [foldl_step _ _ _ _ (parseStep_ws (⟨false, false, false, false, false, false,
      [] ++ List.map toQ3 m.verts, [] ++ List.map toQ3 m.norms, [],
      [], [], [], []⟩ : PState) [] rfl)]
  rw [foldl_step _ _ _ _ (parseStep_hdr_vi (⟨false, false, false, false, false, false,
      [] ++ List.map toQ3 m.verts, [] ++ List.map toQ3 m.norms, [],
      [], [], [], []⟩ : PState) m.name e4 rfl rfl rfl)]
  rw [foldl_vi_entries m.vertex_indices (⟨false, false, false, true, false, false,
      [] ++ List.map toQ3 m.verts, [] ++ List.map toQ3 m.norms, [],
      [], [], [], []⟩ : PState) _ rfl rfl rfl rfl rfl rfl]
  rw [foldl_step _ _ _ _ (parseStep_close_vi (⟨false, false, false, true, false, false,
      [] ++ List.map toQ3 m.verts, [] ++ List.map toQ3 m.norms, [],
      [] ++ List.map quadToZ m.vertex_indices, [], [], []⟩ : PState) rfl rfl rfl rfl rfl rfl)]
  rw [foldl_step _ _ _ _ (parseStep_ws (⟨false, false, false, false, false, false,
      [] ++ List.map toQ3 m.verts, [] ++ List.map toQ3 m.norms, [],
      [] ++ List.map quadToZ m.vertex_indices, [], [], []⟩ : PState) [] rfl)]
  rw [foldl_step _ _ _ _ (parseStep_hdr_uvi (⟨false, false, false, false, false, false,
      [] ++ List.map toQ3 m.verts, [] ++ List.map toQ3 m.norms, [],
      [] ++ List.map quadToZ m.vertex_indices, [], [], []⟩ : PState) m.name e5 e6 rfl rfl rfl rfl)]
  rw [foldl_uvi_entries m.uv_indices (⟨false, false, false, false, true, false,
      [] ++ List.map toQ3 m.verts, [] ++ List.map toQ3 m.norms, [],
      [] ++ List.map quadToZ m.vertex_indices, [], [], []⟩ : PState) _ rfl rfl rfl rfl rfl rfl]
  rw [foldl_step _ _ _ _ (parseStep_close_uvi (⟨false, false, false, false, true, false,
      [] ++ List.map toQ3 m.verts, [] ++ List.map toQ3 m.norms, [],
      [] ++ List.map quadToZ m.vertex_indices, [] ++ List.map quadToZ m.uv_indices, [], []⟩ : PState) rfl rfl rfl rfl rfl rfl)]
  rw [foldl_step _ _ _ _ (parseStep_ws (⟨false, false, false, false, false, false,
      [] ++ List.map toQ3 m.verts, [] ++ List.map toQ3 m.norms, [],
      [] ++ List.map quadToZ m.vertex_indices, [] ++ List.map quadToZ m.uv_indices, [], []⟩ : PState) [] rfl)]
  rw [foldl_step _ _ _ _ (parseStep_hdr_ni (⟨false, false, false, false, false, false,
      [] ++ List.map toQ3 m.verts, [] ++ List.map toQ3 m.norms, [],
      [] ++ List.map quadToZ m.vertex_indices, [] ++ List.map quadToZ m.uv_indices, [], []⟩ : PState) m.name e7 e8 rfl rfl rfl rfl rfl)]
  rw [foldl_ni_entries m.normal_indices (⟨false, false, false, false, false, true,
      [] ++ List.map toQ3 m.verts, [] ++ List.map toQ3 m.norms, [],
      [] ++ List.map quadToZ m.vertex_indices, [] ++ List.map quadToZ m.uv_indices, [], []⟩ : PState) _]
  rw [foldl_step _ _ _ _ (parseStep_close_ni (⟨false, false, false, false, false, true,
      [] ++ List.map toQ3 m.verts, [] ++ List.map toQ3 m.norms, [],
      [] ++ List.map quadToZ m.vertex_indices, [] ++ List.map quadToZ m.uv_indices, [], []⟩ : PState) rfl rfl rfl rfl rfl rfl)]
  rw [foldl_step _ _ _ _ (parseStep_ws (⟨false, false, false, false, false, false,
      [] ++ List.map toQ3 m.verts, [] ++ List.map toQ3 m.norms, [],
      [] ++ List.map quadToZ m.vertex_indices, [] ++ List.map quadToZ m.uv_indices, [], []⟩ : PState) [] rfl)]
  rw [foldl_step _ _ _ _ (parseStep_hdr_uv (⟨false, false, false, false, false, false,
      [] ++ List.map toQ3 m.verts, [] ++ List.map toQ3 m.norms, [],
      [] ++ List.map quadToZ m.vertex_indices, [] ++ List.map quadToZ m.uv_indices, [], []⟩ : PState) m.name e2 e3 rfl rfl)]
  rw [foldl_uv_entries m.uvs (⟨false, false, true, false, false, false,
      [] ++ List.map toQ3 m.verts, [] ++ List.map toQ3 m.norms, [],
      [] ++ List.map quadToZ m.vertex_indices, [] ++ List.map quadToZ m.uv_indices, [], []⟩ : PState) _ rfl rfl rfl rfl rfl rfl]
  rw [foldl_step _ _ _ _ (parseStep_close_uv (⟨false, false, true, false, false, false,
      [] ++ List.map toQ3 m.verts, [] ++ List.map toQ3 m.norms, [] ++ List.map toQ2 m.uvs,
      [] ++ List.map quadToZ m.vertex_indices, [] ++ List.map quadToZ m.uv_indices, [], []⟩ : PState) rfl rfl rfl rfl rfl rfl)]
  rfl

/-- Counterexample to C1 as stated: `cexModel` has a nonempty normal-index
    list, yet parsing its own serialized output yields an empty normal-index
    list (the serializer writes bare integers, the parser demands braces). -/
theorem roundtrip_loses_normal_indices :
    (load_obj_c_model (serializeLines cexModel)).toOption.map PState.normal_indices =
      some [] ∧ cexModel.normal_indices ≠ [] := by
  constructor
  · decide
  · decide

/-- Witness instantiating the corrected round-trip theorem at `cexModel`. -/
theorem serialize_parse_roundtrip_witness :
    exportNameOk cexModel ∧
      load_obj_c_model (serializeLines cexModel) = .ok (expectedParse cexModel) :=
  ⟨by unfold exportNameOk; decide,
    serialize_parse_roundtrip cexModel (by unfold exportNameOk; decide)⟩
